import Mathlib

set_option maxHeartbeats 1000000
set_option maxRecDepth 16000
set_option linter.unusedVariables false

/-!
# Verification of the incremental markdown rendering component

Shallow embedding of the streaming markdown renderer in `src/markdown-new.vue`.
Strings are modelled as `List Char` (`Str`): a JS string is a sequence of
characters.  Each JS method of the component becomes a Lean function of the same
name; the two external collaborators (the `marked` converter and the DOMPurify
sanitizer) are out of scope per the design and are modelled as parameters of an
`Env` record, with `Option` results standing for functions that may throw.
JS regular expressions are translated to equivalent explicit scanning functions;
each translation is documented next to the regex it embeds.
-/

abbrev Str := List Char

/-- JS whitespace as used by `trim()` and the regex class `\s` (ASCII range). -/
def isWS (c : Char) : Bool :=
  c == ' ' || c == '\t' || c == '\n' || c == '\r' || c == '\x0b' || c == '\x0c'

/-- JS `String.prototype.trim`. -/
def jsTrim (s : Str) : Str :=
  ((s.dropWhile isWS).reverse.dropWhile isWS).reverse

/-- JS `String.prototype.substring(a, b)`: clamps both arguments to
`[0, length]` and swaps them when `a > b`. -/
def jsSubstring (s : Str) (a b : Int) : Str :=
  let len : Int := s.length
  let a' := min (max a 0) len
  let b' := min (max b 0) len
  let lo := min a' b'
  let hi := max a' b'
  (s.take hi.toNat).drop lo.toNat

/-- JS `String.prototype.substring(a)` (one-argument form). -/
def jsSubstringFrom (s : Str) (a : Int) : Str :=
  jsSubstring s a s.length

/-- JS `String.prototype.lastIndexOf(c)`: index of the last occurrence of the
character `c`, or `-1` when absent; forward accumulator scan. -/
def jsLastIndexOfAux (c : Char) : Str → Int → Int → Int
  | [], _, best => best
  | x :: rest, i, best =>
    jsLastIndexOfAux c rest (i + 1) (if x == c then i else best)

def jsLastIndexOf (c : Char) (s : Str) : Int := jsLastIndexOfAux c s 0 (-1)

/-- JS `String.prototype.split('\n')`, accumulator form. -/
def splitLinesAux : Str → Str → List Str
  | [], cur => [cur.reverse]
  | '\n' :: rest, cur => cur.reverse :: splitLinesAux rest []
  | c :: rest, cur => splitLinesAux rest (c :: cur)

/-- JS `markdown.split('\n')`. -/
def splitLines (s : Str) : List Str := splitLinesAux s []

/-- The regex `/^(\s*)(```|~~~)/` of `processCodeBlock`: optional leading
whitespace followed by a fence marker; returns the marker (capture group 2). -/
def fenceMatch (line : Str) : Option Str :=
  let rest := line.dropWhile isWS
  if ("```".data).isPrefixOf rest then some ("```".data)
  else if ("~~~".data).isPrefixOf rest then some ("~~~".data)
  else none

/-- The regex `/^#{1,6}\s+/` of `processHeading`: one to six `#` characters
(the maximal run, by backtracking) followed by at least one whitespace. -/
def headingTest (line : Str) : Bool :=
  let hashes := line.takeWhile (fun c => c == '#')
  let rest := line.dropWhile (fun c => c == '#')
  decide (1 ≤ hashes.length) && decide (hashes.length ≤ 6) &&
    (match rest with
     | c :: _ => isWS c
     | [] => false)

/-- The regex `/^(\s*)([-*+]|\d+\.)\s+/` of `processListItem` and
`processEmptyLine`: returns the indentation width (length of capture group 1)
when the line is a list item. -/
def listMatch (line : Str) : Option Nat :=
  let ws := line.takeWhile isWS
  let rest := line.dropWhile isWS
  let indent := ws.length
  match rest with
  | [] => none
  | c :: tail =>
    if c == '-' || c == '*' || c == '+' then
      match tail with
      | c2 :: _ => if isWS c2 then some indent else none
      | [] => none
    else if c.isDigit then
      let after := rest.dropWhile Char.isDigit
      match after with
      | '.' :: c2 :: _ => if isWS c2 then some indent else none
      | _ => none
    else none

/-- The per-pass scanner state of `detectBlockBoundaries` (the JS `state`
object literal). -/
structure ScanState where
  currentIndex : Int
  inCodeBlock : Bool
  codeBlockFence : Str
  inList : Bool
  listIndent : Int
  lastNonEmptyLineIndex : Int
deriving Repr, DecidableEq

def initialScanState : ScanState :=
  ⟨0, false, [], false, -1, -1⟩

/-- `processCodeBlock(line, lineIndex, lineEndIndex, state, boundaries,
lineStartIndex)`.  Returns the JS return value (`handled`) together with the
mutated state and boundary list. -/
def processCodeBlock (line : Str) (lineIndex lineEndIndex : Int)
    (state : ScanState) (boundaries : List Int) (lineStartIndex : Int) :
    Bool × ScanState × List Int :=
  match fenceMatch line with
  | none => (false, state, boundaries)
  | some fence =>
    if !state.inCodeBlock then
      let boundaries :=
        if state.lastNonEmptyLineIndex ≥ 0 &&
            state.lastNonEmptyLineIndex < lineIndex - 1 then
          boundaries ++ [state.currentIndex - 1]
        else boundaries
      (false, { state with inCodeBlock := true, codeBlockFence := fence },
        boundaries)
    else if fence == state.codeBlockFence then
      (true,
        { state with
            inCodeBlock := false
            codeBlockFence := []
            lastNonEmptyLineIndex := lineIndex },
        boundaries ++ [lineEndIndex])
    else
      (false, state, boundaries)

/-- `processHeading(line, lineIndex, lineEndIndex, state, boundaries,
lineStartIndex)`. -/
def processHeading (line : Str) (lineIndex lineEndIndex : Int)
    (state : ScanState) (boundaries : List Int) (lineStartIndex : Int) :
    Bool × ScanState × List Int :=
  if !headingTest line || state.inList then (false, state, boundaries)
  else
    let boundaries :=
      if state.lastNonEmptyLineIndex ≥ 0 &&
          state.lastNonEmptyLineIndex < lineIndex - 1 then
        boundaries ++ [lineStartIndex - 1]
      else boundaries
    (true, { state with lastNonEmptyLineIndex := lineIndex },
      boundaries ++ [lineEndIndex])

/-- `processListItem(line, lineIndex, isEmptyLine, lineEndIndex, state,
boundaries, lineStartIndex)`. -/
def processListItem (line : Str) (lineIndex : Int) (isEmptyLine : Bool)
    (lineEndIndex : Int) (state : ScanState) (boundaries : List Int)
    (lineStartIndex : Int) : Bool × ScanState × List Int :=
  if isEmptyLine then (false, state, boundaries)
  else
    match listMatch line with
    | none => (false, state, boundaries)
    | some indentN =>
      let indent : Int := indentN
      if !state.inList || indent < state.listIndent then
        let boundaries :=
          if state.inList && state.lastNonEmptyLineIndex ≥ 0 then
            boundaries ++ [lineStartIndex - 1]
          else boundaries
        (true,
          { state with
              inList := true
              listIndent := indent
              lastNonEmptyLineIndex := lineIndex },
          boundaries)
      else
        (true, { state with lastNonEmptyLineIndex := lineIndex }, boundaries)

/-- `processEmptyLine(line, lineIndex, isEmptyLine, lines, lineStartIndex,
state, boundaries)`. -/
def processEmptyLine (line : Str) (lineIndex : Int) (isEmptyLine : Bool)
    (lines : List Str) (lineStartIndex : Int) (state : ScanState)
    (boundaries : List Int) : ScanState × List Int :=
  if !isEmptyLine then
    if !state.inList then
      ({ state with lastNonEmptyLineIndex := lineIndex }, boundaries)
    else (state, boundaries)
  else
    let boundaries :=
      if state.lastNonEmptyLineIndex ≥ 0 &&
          state.lastNonEmptyLineIndex < lineIndex - 1 then
        boundaries ++ [lineStartIndex - 1]
      else boundaries
    if state.inList then
      if lineIndex < (lines.length : Int) - 1 then
        let nextLine := lines.getD (lineIndex + 1).toNat []
        let nextListMatch := listMatch nextLine
        let nextIndent : Int :=
          match nextListMatch with
          | some n => (n : Int)
          | none => -1
        if nextListMatch.isNone || nextIndent < state.listIndent then
          ({ state with inList := false, listIndent := -1 }, boundaries)
        else (state, boundaries)
      else
        ({ state with inList := false, listIndent := -1 }, boundaries)
    else (state, boundaries)

/-- The `for` loop of `detectBlockBoundaries`, recursing structurally on the
list of lines not yet visited (`rest = lines.drop i`); `lines` itself is kept
because `processEmptyLine` looks ahead at `lines[lineIndex + 1]`. -/
def detectLoop (lines : List Str) : List Str → Int → ScanState → List Int →
    List Int
  | [], _, _, boundaries => boundaries
  | line :: rest, i, state, boundaries =>
    let lineStartIndex := state.currentIndex
    let lineEndIndex := state.currentIndex + (line.length : Int)
    let isEmptyLine := jsTrim line == []
    let r1 := processCodeBlock line i lineEndIndex state boundaries
      lineStartIndex
    if r1.1 then
      detectLoop lines rest (i + 1)
        { r1.2.1 with currentIndex := lineEndIndex + 1 } r1.2.2
    else if r1.2.1.inCodeBlock then
      detectLoop lines rest (i + 1)
        { r1.2.1 with currentIndex := lineEndIndex + 1 } r1.2.2
    else
      let r2 := processHeading line i lineEndIndex r1.2.1 r1.2.2 lineStartIndex
      if r2.1 then
        detectLoop lines rest (i + 1)
          { r2.2.1 with currentIndex := lineEndIndex + 1 } r2.2.2
      else
        let r3 := processListItem line i isEmptyLine lineEndIndex r2.2.1 r2.2.2
          lineStartIndex
        if r3.1 then
          detectLoop lines rest (i + 1)
            { r3.2.1 with currentIndex := lineEndIndex + 1 } r3.2.2
        else
          let r4 := processEmptyLine line i isEmptyLine lines lineStartIndex
            r3.2.1 r3.2.2
          detectLoop lines rest (i + 1)
            { r4.1 with currentIndex := lineEndIndex + 1 } r4.2

/-- `detectBlockBoundaries(markdown)`: ordered offsets at which a complete
block ends. -/
def detectBlockBoundaries (markdown : Str) : List Int :=
  detectLoop (splitLines markdown) (splitLines markdown) 0 initialScanState []

/-- Fence bookkeeping extracted from `processCodeBlock`: the fence open/close
transitions depend only on `inCodeBlock`, `codeBlockFence` and the line text
(matched with the same `/^(\s*)(```|~~~)/` regex).  This scan records, with the
same per-line offsets as `detectBlockBoundaries`, the span of every fenced code
block: a pair `(openEnd, closeStart)` of the end offset of the fence-opening
line and the start offset of its matching closing fence line, plus the end
offset of the opening line of a trailing unclosed fence, if any. -/
structure FenceScan where
  currentIndex : Int
  inCB : Bool
  fence : Str
  openEnd : Int
deriving Repr, DecidableEq

def fenceRegionsLoop : List Str → FenceScan → List (Int × Int) × Option Int
  | [], fs => ([], if fs.inCB then some fs.openEnd else none)
  | line :: rest, fs =>
    let lineEnd := fs.currentIndex + (line.length : Int)
    match fenceMatch line with
    | some f =>
      if !fs.inCB then
        fenceRegionsLoop rest ⟨lineEnd + 1, true, f, lineEnd⟩
      else if f == fs.fence then
        let r := fenceRegionsLoop rest ⟨lineEnd + 1, false, [], fs.openEnd⟩
        ((fs.openEnd, fs.currentIndex) :: r.1, r.2)
      else
        fenceRegionsLoop rest { fs with currentIndex := lineEnd + 1 }
    | none =>
      fenceRegionsLoop rest { fs with currentIndex := lineEnd + 1 }

/-- The fenced-code-block spans of a markdown buffer, with the offset of the
opening line's end and the matching closing line's start, plus the open end of
an unclosed trailing fence. -/
def fenceRegions (markdown : Str) : List (Int × Int) × Option Int :=
  fenceRegionsLoop (splitLines markdown) ⟨0, false, [], 0⟩

example : detectBlockBoundaries ("# a\n".data) = [3] := by decide

example : detectBlockBoundaries ("```\nx\n```\n".data) = [9] := by decide

example : detectBlockBoundaries ("- a\n- b\n\n- c\n".data) = [] := by decide

example : detectBlockBoundaries ("- a\n- b\n\n".data) = [8] := by decide

example : detectBlockBoundaries ("- a\n\n\n- b\n".data) = [4] := by decide

example : fenceRegions ("```\nx\n```\ny".data) = ([(3, 6)], none) := by decide

example : fenceRegions ("a\n```\nx".data) = ([], some 5) := by decide

/-! ## HTML block splitter (`splitIntoCompleteBlocks` and helpers) -/

/-- The JS regex class `\w`. -/
def isWordChar (c : Char) : Bool :=
  (c ≥ 'a' && c ≤ 'z') || (c ≥ 'A' && c ≤ 'Z') || (c ≥ '0' && c ≤ '9') ||
    c == '_'

/-- The regex `/^<(\w+)(?:\s[^>]*)?(?:\s*\/)?>/` of `processStartTag`, applied
to `html.substring(i)`.  Returns the tag name (capture group 1), the length of
the whole match, and whether the match ends in `/>` (the self-closing test).
By backtracking the regex accepts exactly: `<` + a maximal nonempty `\w+` run,
followed by `>`, or by `/>`, or by one whitespace and then everything up to the
first subsequent `>`. -/
def tagMatch (s : Str) : Option (Str × Nat × Bool) :=
  match s with
  | '<' :: rest =>
    let w := rest.takeWhile isWordChar
    if w == [] then none
    else
      match rest.drop w.length with
      | '>' :: _ => some (w, w.length + 2, false)
      | '/' :: '>' :: _ => some (w, w.length + 3, true)
      | c :: cs =>
        if isWS c then
          let upto := cs.takeWhile (fun x => !(x == '>'))
          match cs.drop upto.length with
          | '>' :: _ =>
            let endsSlash :=
              match upto.reverse with
              | '/' :: _ => true
              | _ => false
            some (w, w.length + upto.length + 3, endsSlash)
          | _ => none
        else none
      | [] => none
  | _ => none

/-- The regex `/^<\/(\w+)>/` of `processCloseTag`: tag name and match length. -/
def closeTagMatch (s : Str) : Option (Str × Nat) :=
  match s with
  | '<' :: '/' :: rest =>
    let w := rest.takeWhile isWordChar
    if w == [] then none
    else
      match rest.drop w.length with
      | '>' :: _ => some (w, w.length + 3)
      | _ => none
  | _ => none

/-- The `topLevelBlockElements` array of `splitIntoCompleteBlocks`. -/
def topLevelBlockElements : List Str :=
  [("p".data), ("h1".data), ("h2".data), ("h3".data), ("h4".data),
   ("h5".data), ("h6".data), ("ul".data), ("ol".data),
   ("blockquote".data), ("pre".data), ("table".data), ("hr".data)]

/-- `isSelfClosingTag(tagName)`. -/
def isSelfClosingTag (tagName : Str) : Bool :=
  [("img".data), ("br".data), ("hr".data), ("input".data)].contains
    (tagName.map Char.toLower)

/-- Mutable locals of the `splitIntoCompleteBlocks` loop.  The JS stack stores
`{name, index}` objects with the top at the end of the array; the `index` field
is never read, so the stack is modelled as the list of names with the top at
the head. -/
structure SplitSt where
  stack : List Str
  currentBlockStart : Int
  blocks : List Str
deriving Repr, DecidableEq

/-- The stack search-and-splice of `processCloseTag`: drop every entry above
(and including) the topmost entry named `name`; `none` when no entry matches
(the JS loop then leaves the stack unchanged). -/
def popToMatch (name : Str) : List Str → Option (List Str)
  | [] => none
  | e :: rest => if e == name then some rest else popToMatch name rest

/-- `handleSelfClosingBlock(html, i, tagMatch, currentBlockStart, blocks)`;
`mlen` is `tagMatch[0].length`.  Returns the new state and `nextIndex`. -/
def handleSelfClosingBlock (html : Str) (i : Nat) (mlen : Nat)
    (st : SplitSt) : SplitSt × Option Nat :=
  let blocks :=
    if st.currentBlockStart ≥ 0 && (i : Int) > st.currentBlockStart then
      let prevBlock := jsTrim (jsSubstring html st.currentBlockStart i)
      if prevBlock ≠ [] then st.blocks ++ [prevBlock] else st.blocks
    else st.blocks
  let tagEnd := i + mlen
  (⟨st.stack, -1, blocks ++ [jsSubstring html i tagEnd]⟩, some tagEnd)

/-- `handleNonSelfClosingBlock(html, i, tagName, stack, currentBlockStart,
blocks)`. -/
def handleNonSelfClosingBlock (html : Str) (i : Nat) (tagName : Str)
    (st : SplitSt) : SplitSt × Option Nat :=
  let blocks :=
    if st.currentBlockStart ≥ 0 && (i : Int) > st.currentBlockStart then
      let prevBlock := jsTrim (jsSubstring html st.currentBlockStart i)
      if prevBlock ≠ [] then st.blocks ++ [prevBlock] else st.blocks
    else st.blocks
  (⟨tagName :: st.stack, (i : Int), blocks⟩, some (i + 1))

/-- `processStartTag(html, i, stack, currentBlockStart, blocks,
topLevelBlockElements)`.  A `none` second component means the JS function
returned `null` (the loop then advances by one character); the state is
returned in every case because the non-top-level branch pushes onto the stack
before returning `null`. -/
def processStartTag (html : Str) (i : Nat) (st : SplitSt) :
    SplitSt × Option Nat :=
  match tagMatch (html.drop i) with
  | none => (st, none)
  | some (w, mlen, slashGt) =>
    let tagName := w.map Char.toLower
    let isTopLevelBlock := topLevelBlockElements.contains tagName
    let isSelfClosing := slashGt || isSelfClosingTag tagName
    if !isTopLevelBlock then
      if st.stack.length > 0 && !isSelfClosing then
        (⟨tagName :: st.stack, st.currentBlockStart, st.blocks⟩, none)
      else (st, none)
    else if isSelfClosing then
      handleSelfClosingBlock html i mlen st
    else
      handleNonSelfClosingBlock html i tagName st

/-- `processCloseTag(html, i, stack, currentBlockStart, blocks,
topLevelBlockElements)`. -/
def processCloseTag (html : Str) (i : Nat) (st : SplitSt) : SplitSt :=
  match closeTagMatch (html.drop i) with
  | none => st
  | some (w, mlen) =>
    if st.stack.length == 0 then st
    else
      let tagName := w.map Char.toLower
      match popToMatch tagName st.stack with
      | none => st
      | some newStack =>
        if newStack.length == 0 && st.currentBlockStart ≥ 0 &&
            topLevelBlockElements.contains tagName then
          let blockEnd := i + mlen
          ⟨newStack, -1,
            st.blocks ++ [jsSubstring html st.currentBlockStart blockEnd]⟩
        else ⟨newStack, st.currentBlockStart, st.blocks⟩

/-- `processLastBlock(html, currentBlockStart, blocks)`. -/
def processLastBlock (html : Str) (st : SplitSt) : List Str :=
  if st.currentBlockStart ≥ 0 && st.currentBlockStart < (html.length : Int) then
    let lastBlock := jsTrim (jsSubstringFrom html st.currentBlockStart)
    if lastBlock ≠ [] then st.blocks ++ [lastBlock] else st.blocks
  else if st.blocks.length == 0 then [html]
  else st.blocks

/-- The `while (i < html.length)` loop of `splitIntoCompleteBlocks`.  Every
iteration advances `i` by at least one, so running the loop with
`fuel = html.length` is exact: fuel runs out only when `i ≥ html.length`. -/
def splitLoop (html : Str) : Nat → Nat → SplitSt → SplitSt
  | 0, _, st => st
  | fuel + 1, i, st =>
    if i < html.length then
      if html.getD i ' ' == '<' && !(html.getD (i + 1) ' ' == '/') &&
          !(html.getD (i + 1) ' ' == '!') then
        match processStartTag html i st with
        | (st', some next) => splitLoop html fuel next st'
        | (st', none) => splitLoop html fuel (i + 1) st'
      else if html.getD i ' ' == '<' && html.getD (i + 1) ' ' == '/' then
        splitLoop html fuel (i + 1) (processCloseTag html i st)
      else
        splitLoop html fuel (i + 1) st
    else st

/-- `splitIntoCompleteBlocks(html)`. -/
def splitIntoCompleteBlocks (html : Str) : List Str :=
  if html == [] || jsTrim html == [] then []
  else processLastBlock html (splitLoop html html.length 0 ⟨[], -1, []⟩)

example :
    splitIntoCompleteBlocks ("<p>a</p><p>b</p>".data) =
      [("<p>a</p>".data), ("<p>b</p>".data)] := by decide

example :
    splitIntoCompleteBlocks ("hello <p>x</p>".data) = [("<p>x</p>".data)] := by
  decide

example :
    splitIntoCompleteBlocks ("<ul><li>a</li><li>b</li></ul>".data) =
      [("<ul><li>a</li><li>b</li></ul>".data)] := by decide

example :
    splitIntoCompleteBlocks ("plain text only".data) =
      [("plain text only".data)] := by decide

example :
    splitIntoCompleteBlocks ("<p>a<img src=\x22x\x22></p>".data) =
      [("<p>a<img src=\x22x\x22></p>".data)] := by decide

/-! ## Merge engine predicates -/

/-- The regex `/^<p(?:\s[^>]*)?>/` (case-sensitive): `<p` followed directly by
`>`, or by one whitespace, any characters other than `>`, and a `>`. -/
def pOpenAt : Str → Bool
  | '<' :: 'p' :: '>' :: _ => true
  | '<' :: 'p' :: c :: rest => isWS c && rest.any (fun x => x == '>')
  | _ => false

/-- Generic form of the anchored-end regexes `/<\/name>\s*$/`: the string ends
with `</name>` followed only by whitespace.  `lower` is `Char.toLower` for the
`/i`-flagged regexes and the identity otherwise. -/
def endsWithCloseTag (lower : Char → Char) (name : Str) (s : Str) : Bool :=
  let revNoWs := s.reverse.dropWhile isWS
  (("</".data ++ name ++ (">".data)).reverse).isPrefixOf
    (revNoWs.map lower |>.take (name.length + 3))

/-- Generic form of `replace(/<\/name>\s*$/, '')` (single anchored match): the
regex matches exactly when the string, after its trailing whitespace, ends with
`</name>`; the replacement removes that tag and the trailing whitespace. -/
def replaceCloseTagEnd (lower : Char → Char) (name : Str) (s : Str) : Str :=
  let revNoWs := s.reverse.dropWhile isWS
  if (("</".data ++ name ++ (">".data)).reverse).isPrefixOf
      (revNoWs.map lower) then
    (revNoWs.drop (name.length + 3)).reverse
  else s

/-- `replace(/^<p[^>]*>/, '')` of `mergeBlocks` (case-sensitive, note that the
opening-tag shape here is `<p[^>]*>`: no whitespace is required after `p`). -/
def replacePOpen (s : Str) : Str :=
  match s with
  | '<' :: 'p' :: rest =>
    let upto := rest.takeWhile (fun x => !(x == '>'))
    match rest.drop upto.length with
    | '>' :: rest2 => rest2
    | _ => s
  | _ => s

/-- The global replace `/<[^>]+>/g` of `isParagraphComplete`, as a fuelled
left-to-right scan: at each `<`, a maximal nonempty run of non-`>` characters
followed by `>` is removed; otherwise the character is kept and scanning
resumes at the next position.  Each step consumes at least one character, so
`fuel = s.length` is exact. -/
def stripTagsF : Nat → Str → Str
  | 0, s => s
  | _, [] => []
  | fuel + 1, '<' :: rest =>
    let inside := rest.takeWhile (fun c => !(c == '>'))
    if inside == [] then '<' :: stripTagsF fuel rest
    else
      match rest.drop inside.length with
      | '>' :: rest2 => stripTagsF fuel rest2
      | _ => '<' :: stripTagsF fuel rest
  | fuel + 1, c :: rest => c :: stripTagsF fuel rest

/-- `html.replace(/<[^>]+>/g, '')`. -/
def stripTags (s : Str) : Str := stripTagsF s.length s

/-- The character class of `/[。！？.!?]\s*$/`. -/
def sentenceMarks : Str := "。！？.!?".data

/-- The regex `/[。！？.!?]\s*$/`: the last character before any trailing
whitespace is a sentence-terminating mark. -/
def endsWithSentenceMark (s : Str) : Bool :=
  match s.reverse.dropWhile isWS with
  | c :: _ => sentenceMarks.contains c
  | [] => false

/-- Substring test (JS `.test` of a regex made of literal characters). -/
def strContains (pat : Str) : Str → Bool
  | [] => pat == []
  | c :: rest => pat.isPrefixOf (c :: rest) || strContains pat rest

/-- The regex test `/<img/` (case-sensitive) of `isParagraphComplete`. -/
def hasImgSubstring (html : Str) : Bool :=
  strContains ("<img".data) html

/-- The scan behind `containsImage`'s regex `/<img[\s\S]*?>/i`: the pattern
matches iff some (case-insensitive) occurrence of `<img` is followed, at or
after its end, by a `>`. -/
def containsImageAux : Str → Bool
  | [] => false
  | c :: rest =>
    if (("<img".data)).isPrefixOf ((c :: rest).take 4 |>.map Char.toLower) then
      ((c :: rest).drop 4).any (fun x => x == '>')
    else containsImageAux rest

/-- `containsImage(html)`. -/
def containsImage (html : Str) : Bool :=
  !(html == []) && containsImageAux html

/-- `isParagraphBlock(html)`: the trimmed string starts with a `<p ...>` tag
and ends with `</p>` (plus whitespace). -/
def isParagraphBlock (html : Str) : Bool :=
  !(html == []) &&
    (let trimmed := jsTrim html
     pOpenAt trimmed && endsWithCloseTag (fun c => c) ("p".data) trimmed)

/-- `isParagraphComplete(html)`. -/
def isParagraphComplete (html : Str) : Bool :=
  !(html == []) &&
    (endsWithSentenceMark (jsTrim (stripTags html)) || hasImgSubstring html)

/-- The `(?:\s[^>]*)?>` tail shared by the open-tag regexes: after the tag
name, either `>` directly, or one whitespace and then anything up to a `>`. -/
def openTagAfterName (rest : Str) : Bool :=
  match rest with
  | '>' :: _ => true
  | c :: cs => isWS c && cs.any (fun x => x == '>')
  | [] => false

/-- Anchored-start open-tag test `/^<name(?:\s[^>]*)?>/` with selectable case
folding. -/
def startsWithOpenTag (lower : Char → Char) (name : Str) (s : Str) : Bool :=
  match s with
  | '<' :: rest =>
    ((rest.take name.length).map lower == name) &&
      openTagAfterName (rest.drop name.length)
  | _ => false

/-- Unanchored open-tag test `/<name(?:\s[^>]*)?>/i` (a `.test` without `^`):
some position carries the open tag. -/
def containsOpenTagCI (name : Str) : Str → Bool
  | [] => false
  | c :: rest =>
    startsWithOpenTag Char.toLower name (c :: rest) ||
      containsOpenTagCI name rest

/-- Unanchored close-tag test `/<\/name>/i`. -/
def containsCloseTagCI (name : Str) (s : Str) : Bool :=
  strContains ("</".data ++ name ++ (">".data)) (s.map Char.toLower)

/-- `isIncompleteList(html)`. -/
def isIncompleteList (html : Str) : Bool :=
  !(html == []) &&
    (let trimmed := jsTrim html
     let hasListStart := containsOpenTagCI ("ul".data) trimmed ||
       containsOpenTagCI ("ol".data) trimmed
     let hasListEnd := containsCloseTagCI ("ul".data) trimmed ||
       containsCloseTagCI ("ol".data) trimmed
     hasListStart && !hasListEnd)

/-- `isListItemBlock(html)` (case-sensitive regexes). -/
def isListItemBlock (html : Str) : Bool :=
  !(html == []) &&
    (let trimmed := jsTrim html
     startsWithOpenTag (fun c => c) ("li".data) trimmed &&
       endsWithCloseTag (fun c => c) ("li".data) trimmed)

/-- `isListBlock(html)` (`/i` regexes, `[uo]l` alternation). -/
def isListBlock (html : Str) : Bool :=
  !(html == []) &&
    (let trimmed := jsTrim html
     (startsWithOpenTag Char.toLower ("ul".data) trimmed ||
        startsWithOpenTag Char.toLower ("ol".data) trimmed) &&
       (endsWithCloseTag Char.toLower ("ul".data) trimmed ||
        endsWithCloseTag Char.toLower ("ol".data) trimmed))

/-- `isIncompleteTable(html)`. -/
def isIncompleteTable (html : Str) : Bool :=
  !(html == []) &&
    (let trimmed := jsTrim html
     containsOpenTagCI ("table".data) trimmed &&
       !containsCloseTagCI ("table".data) trimmed)

/-- `isTableRowBlock(html)` (case-sensitive regexes). -/
def isTableRowBlock (html : Str) : Bool :=
  !(html == []) &&
    (let trimmed := jsTrim html
     startsWithOpenTag (fun c => c) ("tr".data) trimmed &&
       endsWithCloseTag (fun c => c) ("tr".data) trimmed)

/-- `isTableBlock(html)` (`/i`). -/
def isTableBlock (html : Str) : Bool :=
  !(html == []) &&
    (let trimmed := jsTrim html
     startsWithOpenTag Char.toLower ("table".data) trimmed &&
       endsWithCloseTag Char.toLower ("table".data) trimmed)

/-- `isIncompleteBlockquote(html)`. -/
def isIncompleteBlockquote (html : Str) : Bool :=
  !(html == []) &&
    (let trimmed := jsTrim html
     containsOpenTagCI ("blockquote".data) trimmed &&
       !containsCloseTagCI ("blockquote".data) trimmed)

/-- `isBlockquoteContent(html)`: the regex
`/^<(p|h[1-6]|ul|ol|blockquote)(?:\s[^>]*)?>/i`. -/
def isBlockquoteContent (html : Str) : Bool :=
  !(html == []) &&
    (let trimmed := jsTrim html
     [("p".data), ("h1".data), ("h2".data), ("h3".data), ("h4".data),
      ("h5".data), ("h6".data), ("ul".data), ("ol".data),
      ("blockquote".data)].any
       (fun n => startsWithOpenTag Char.toLower n trimmed))

/-- `shouldMergeBlocks(lastBlockHtml, currentBlockHtml)`. -/
def shouldMergeBlocks (lastBlockHtml currentBlockHtml : Str) : Bool :=
  if lastBlockHtml == [] || currentBlockHtml == [] then false
  else if isParagraphBlock lastBlockHtml &&
      isParagraphBlock currentBlockHtml then
    !isParagraphComplete lastBlockHtml
  else if isIncompleteList lastBlockHtml then
    isListItemBlock currentBlockHtml || isListBlock currentBlockHtml ||
      isParagraphBlock currentBlockHtml
  else if isIncompleteTable lastBlockHtml then
    isTableRowBlock currentBlockHtml || isTableBlock currentBlockHtml
  else if isIncompleteBlockquote lastBlockHtml then
    isBlockquoteContent currentBlockHtml
  else false

example : pOpenAt ("<p>x</p>".data) = true := by decide
example : isParagraphBlock ("<p>abc</p>".data) = true := by decide
example : isParagraphBlock ("<p>abc</p><p>d</p>".data) = true := by decide
example : isParagraphComplete ("<p>abc.</p>".data) = true := by decide
example : isParagraphComplete ("<p>abc</p>".data) = false := by decide
example : containsImage ("<p><img src=\x22a\x22></p>".data) = true := by decide
example : containsImage ("<p>x</p>".data) = false := by decide
example : isIncompleteList ("<ul><li>a</li>".data) = true := by decide
example : isIncompleteList ("<ul><li>a</li></ul>".data) = false := by decide
example :
    shouldMergeBlocks ("<p>abc</p>".data) ("<p>def</p>".data) = true := by
  decide
example :
    shouldMergeBlocks ("<p>abc.</p>".data) ("<p>def</p>".data) = false := by
  decide

/-! ## Merge engine transformations (`mergeBlocks`) -/

/-- The global replace `/<\/[uo]l>/gi → ''` of the list-merge branches:
removes every (case-insensitive) occurrence of `</ul>` or `</ol>`, scanning
left to right.  Each step consumes at least one character. -/
def removeListClosesF : Nat → Str → Str
  | 0, s => s
  | _, [] => []
  | fuel + 1, c :: rest =>
    let here := (c :: rest).take 5 |>.map Char.toLower
    if here == ("</ul>".data) || here == ("</ol>".data) then
      removeListClosesF fuel ((c :: rest).drop 5)
    else c :: removeListClosesF fuel rest

/-- `lastHtml.replace(/<\/[uo]l>/gi, '')`. -/
def removeListCloses (s : Str) : Str := removeListClosesF s.length s

/-- The first-occurrence match `/<([uo]l)(?:\s[^>]*)?>/i` of `mergeBlocks`:
the lowercased capture group 1 (`ul` or `ol`) of the first list-open tag. -/
def firstListOpenType : Str → Option Str
  | '<' :: c1 :: c2 :: r =>
    let t := [c1.toLower, c2.toLower]
    if (t == ("ul".data) || t == ("ol".data)) && openTagAfterName r then some t
    else firstListOpenType (c1 :: c2 :: r)
  | _ :: rest => firstListOpenType rest
  | [] => none

/-- Match of `<name[^>]*>` (optionally case-insensitive via `lower`) at the
start of `s`; returns the match length.  Note the regex requires no whitespace
after the name: `[^>]*` immediately follows it. -/
def openTagLooseAt (lower : Char → Char) (name : Str) (s : Str) :
    Option Nat :=
  match s with
  | '<' :: r =>
    if (r.take name.length).map lower == name then
      let rest := r.drop name.length
      let upto := rest.takeWhile (fun c => !(c == '>'))
      match rest.drop upto.length with
      | '>' :: _ => some (name.length + upto.length + 2)
      | _ => none
    else none
  | _ => none

/-- First index at which `</name>` occurs (case-insensitively). -/
def findCloseIdx (name : Str) : Str → Option Nat
  | [] => none
  | c :: rest =>
    if ((c :: rest).take (name.length + 3)).map Char.toLower ==
        ("</".data ++ name ++ (">".data)) then some 0
    else (findCloseIdx name rest).map (fun n => n + 1)

/-- The global match `/<name[^>]*>[\s\S]*?<\/name>/gi` (used with `li` and
`tr`): scanning left to right, each match runs from an open tag to the nearest
following close tag, and scanning resumes after the match. -/
def extractTagMatchesF (name : Str) : Nat → Str → List Str
  | 0, _ => []
  | _, [] => []
  | fuel + 1, c :: rest =>
    match openTagLooseAt Char.toLower name (c :: rest) with
    | some mlen =>
      match findCloseIdx name ((c :: rest).drop mlen) with
      | some k =>
        let matchLen := mlen + k + (name.length + 3)
        ((c :: rest).take matchLen) ::
          extractTagMatchesF name fuel ((c :: rest).drop matchLen)
      | none => []
    | none => extractTagMatchesF name fuel rest

/-- `currentHtml.match(/<name[^>]*>[\s\S]*?<\/name>/gi) || []`. -/
def extractTagMatches (name : Str) (s : Str) : List Str :=
  extractTagMatchesF name s.length s

/-- A rendered block `{id, html}` of `renderBlocks`. -/
structure Block where
  id : Str
  html : Str
deriving Repr, DecidableEq

/-- `mergeBlocks(lastBlock, currentBlockHtml)`: `none` models the JS
`undefined` return (no branch taken); the list- and table-branches return the
(possibly unchanged) updated block exactly as the JS does. -/
def mergeBlocks (lastBlock : Block) (currentBlockHtml : Str) : Option Block :=
  let lastHtml := lastBlock.html
  let currentHtml := currentBlockHtml
  if isParagraphBlock lastHtml && isParagraphBlock currentHtml then
    let lastContent := replaceCloseTagEnd (fun c => c) ("p".data) lastHtml
    let currentContent :=
      replaceCloseTagEnd (fun c => c) ("p".data) (replacePOpen currentHtml)
    some ⟨lastBlock.id, lastContent ++ currentContent ++ ("</p>".data)⟩
  else if isIncompleteList lastHtml then
    let listType := (firstListOpenType lastHtml).getD ("ul".data)
    let listTag := if listType == ("ul".data) then ("ul".data) else ("ol".data)
    let closeTag := ("</".data) ++ listTag ++ (">".data)
    if isListItemBlock currentHtml then
      let lastContent := removeListCloses lastHtml
      some ⟨lastBlock.id, lastContent ++ currentHtml ++ closeTag⟩
    else if isListBlock currentHtml then
      let listItems := extractTagMatches ("li".data) currentHtml
      let lastContent := removeListCloses lastHtml
      some ⟨lastBlock.id, lastContent ++ listItems.flatten ++ closeTag⟩
    else if isParagraphBlock currentHtml then
      let paragraphContent :=
        replaceCloseTagEnd (fun c => c) ("p".data) (replacePOpen currentHtml)
      let lastContent := removeListCloses lastHtml
      some ⟨lastBlock.id,
        lastContent ++ ("<li>".data) ++ paragraphContent ++ ("</li>".data) ++
          closeTag⟩
    else some lastBlock
  else if isIncompleteTable lastHtml then
    if isTableRowBlock currentHtml then
      let lastContent := replaceCloseTagEnd Char.toLower ("table".data) lastHtml
      some ⟨lastBlock.id, lastContent ++ currentHtml ++ ("</table>".data)⟩
    else if isTableBlock currentHtml then
      let tableRows := extractTagMatches ("tr".data) currentHtml
      let lastContent := replaceCloseTagEnd Char.toLower ("table".data) lastHtml
      some ⟨lastBlock.id, lastContent ++ tableRows.flatten ++ ("</table>".data)⟩
    else some lastBlock
  else if isIncompleteBlockquote lastHtml then
    let lastContent :=
      replaceCloseTagEnd Char.toLower ("blockquote".data) lastHtml
    let stripped :=
      match openTagLooseAt Char.toLower ("blockquote".data) currentHtml with
      | some mlen => currentHtml.drop mlen
      | none => currentHtml
    let currentContent :=
      replaceCloseTagEnd Char.toLower ("blockquote".data) stripped
    some ⟨lastBlock.id, lastContent ++ currentContent ++ ("</blockquote>".data)⟩
  else none

example :
    mergeBlocks ⟨("b0".data), ("<p>ab</p>".data)⟩ ("<p>cd</p>".data) =
      some ⟨("b0".data), ("<p>abcd</p>".data)⟩ := by decide

example :
    mergeBlocks ⟨("b0".data), ("<ul><li>a</li>".data)⟩ ("<li>b</li>".data) =
      some ⟨("b0".data), ("<ul><li>a</li><li>b</li></ul>".data)⟩ := by decide

example :
    mergeBlocks ⟨("b0".data), ("<ul><li>a</li>".data)⟩
        ("<ul><li>b</li></ul>".data) =
      some ⟨("b0".data), ("<ul><li>a</li><li>b</li></ul>".data)⟩ := by decide

/-! ## Component state and render pipeline -/

/-- Decimal digit character. -/
def digitChar : Nat → Char
  | 0 => '0'
  | 1 => '1'
  | 2 => '2'
  | 3 => '3'
  | 4 => '4'
  | 5 => '5'
  | 6 => '6'
  | 7 => '7'
  | 8 => '8'
  | _ => '9'

/-- Decimal rendering of a natural number (the JS `${n}` interpolation),
fuelled: the fuel only bounds the recursion depth and `n + 1` always
suffices since `n / 10 < n` for `n ≥ 10`. -/
def natDecF : Nat → Nat → Str
  | 0, _ => []
  | fuel + 1, n =>
    if n < 10 then [digitChar n]
    else natDecF fuel (n / 10) ++ [digitChar (n % 10)]

def natDec (n : Nat) : Str := natDecF (n + 1) n

/-- The block identifier template literal `md-block-${this.blockCounter}`. -/
def mkBlockId (n : Nat) : Str := ("md-block-".data) ++ natDec n

example : mkBlockId 0 = ("md-block-0".data) := by decide
example : mkBlockId 37 = ("md-block-37".data) := by decide

/-- The global replace
`cleanHtml.replace(/<table>/g, '<table class="markdown-table">')`. -/
def styleTablesF : Nat → Str → Str
  | 0, s => s
  | _, [] => []
  | fuel + 1, c :: rest =>
    if ("<table>".data).isPrefixOf (c :: rest) then
      ("<table class=\x22markdown-table\x22>".data) ++
        styleTablesF fuel ((c :: rest).drop 7)
    else c :: styleTablesF fuel rest

def styleTables (s : Str) : Str := styleTablesF s.length s

/-- The mutable component data: `renderBlocks`, `processedLength`,
`blockCounter`, `accumulatedMarkdown`. -/
structure CompState where
  renderBlocks : List Block
  processedLength : Nat
  blockCounter : Nat
  accumulatedMarkdown : Str
deriving Repr, DecidableEq

def initialCompState : CompState := ⟨[], 0, 0, []⟩

/-- The two external collaborators, out of scope per the design and taken as
parameters: `marked(newPart, options)` and the configured
`DOMPurify.sanitize(html, config)` may throw (modelled by `none`), while the
`catch`-branch call `DOMPurify.sanitize(newPart)` is modelled as total, per the
sanitizer's contract of stripping rather than failing. -/
structure Env where
  marked : Str → Option Str
  sanitize : Str → Option Str
  sanitizePlain : Str → Str

/-- An environment whose converter and sanitizer are the identity; used to
observe which raw chunks the accumulator flushes. -/
def idEnv : Env := ⟨fun s => some s, fun s => some s, fun s => s⟩

/-- The `else` branch of the merge decision and the `catch` branch: append a
new block under a fresh identifier and advance the counter. -/
def pushNewBlock (s : CompState) (blockHtml : Str) : CompState :=
  { s with
      renderBlocks := s.renderBlocks ++ [⟨mkBlockId s.blockCounter, blockHtml⟩]
      blockCounter := s.blockCounter + 1 }

/-- The body of the `blocks.forEach` loop in `appendNewContent`: skip
whitespace-only block HTML; merge into the last stored block when
`shouldMergeBlocks` allows it and the last block has no image (a `mergeBlocks`
result of `undefined` leaves the store unchanged); otherwise append a new
block. -/
def appendBlockStep (s : CompState) (blockHtml : Str) : CompState :=
  if !(jsTrim blockHtml == []) then
    match s.renderBlocks.getLast? with
    | some lastBlock =>
      if shouldMergeBlocks lastBlock.html blockHtml then
        if containsImage lastBlock.html then
          pushNewBlock s blockHtml
        else
          match mergeBlocks lastBlock blockHtml with
          | some merged =>
            { s with renderBlocks := s.renderBlocks.dropLast ++ [merged] }
          | none => s
      else pushNewBlock s blockHtml
    | none => pushNewBlock s blockHtml
  else s

/-- `appendNewContent(newPart)`: convert, sanitize, style tables, split into
complete blocks and merge or append each; on a conversion or sanitization
throw, sanitize the raw chunk and append it as a new block. -/
def appendNewContent (env : Env) (newPart : Str) (s : CompState) : CompState :=
  match env.marked newPart with
  | none => pushNewBlock s (env.sanitizePlain newPart)
  | some html =>
    match env.sanitize html with
    | none => pushNewBlock s (env.sanitizePlain newPart)
    | some cleanHtml =>
      let styledHtml := styleTables cleanHtml
      let blocks := splitIntoCompleteBlocks styledHtml
      blocks.foldl appendBlockStep s

/-- The `blockBoundaries.forEach` body of `processAccumulatedContent`,
threading `(state, lastIndex)`; `md` is the accumulated markdown the loop
slices (left untouched by `appendNewContent`). -/
def flushChunkStep (env : Env) (md : Str) (acc : CompState × Int)
    (boundaryIndex : Int) : CompState × Int :=
  let blockMarkdown := jsSubstring md acc.2 (boundaryIndex + 1)
  let st :=
    if !(jsTrim blockMarkdown == []) then
      appendNewContent env blockMarkdown acc.1
    else acc.1
  (st, boundaryIndex + 1)

/-- First half of `processAccumulatedContent()`: when boundaries were
detected, flush every chunk in order and keep the remainder as the new
buffer (`this.accumulatedMarkdown` is only reassigned after the loop, so the
loop slices the buffer as it was on entry). -/
def boundaryFlushPhase (env : Env) (s : CompState) : CompState :=
  let md := s.accumulatedMarkdown
  let blockBoundaries := detectBlockBoundaries md
  if blockBoundaries.length > 0 then
    let r := blockBoundaries.foldl (flushChunkStep env md) (s, 0)
    { r.1 with accumulatedMarkdown := jsSubstringFrom md r.2 }
  else s

/-- Second half of `processAccumulatedContent()`: the size-based overflow
fallback, reading the buffer as left by the first half. -/
def overflowFallbackPhase (env : Env) (s1 : CompState) : CompState :=
  if s1.accumulatedMarkdown.length > 1000 then
    let lastNewline := jsLastIndexOf '\n' s1.accumulatedMarkdown
    if lastNewline > 100 then
      let blockMarkdown :=
        jsSubstring s1.accumulatedMarkdown 0 (lastNewline + 1)
      let s2 := appendNewContent env blockMarkdown s1
      { s2 with
          accumulatedMarkdown :=
            jsSubstringFrom s1.accumulatedMarkdown (lastNewline + 1) }
    else s1
  else s1

/-- `processAccumulatedContent()`: flush every detected boundary in order,
keep the remainder, then apply the size-based overflow fallback. -/
def processAccumulatedContent (env : Env) (s : CompState) : CompState :=
  if s.accumulatedMarkdown == [] then s
  else overflowFallbackPhase env (boundaryFlushPhase env s)

/-- `handleContentUpdate(newContent)`: clear everything on empty content;
reset on shrink; accumulate the new suffix and process it; finally record the
observed total length. -/
def handleContentUpdate (env : Env) (newContent : Str) (s : CompState) :
    CompState :=
  if newContent == [] then initialCompState
  else
    let s1 :=
      if newContent.length < s.processedLength then initialCompState else s
    let newPart := jsSubstringFrom newContent (s1.processedLength : Int)
    let s2 :=
      if !(newPart == []) then
        processAccumulatedContent env
          { s1 with accumulatedMarkdown := s1.accumulatedMarkdown ++ newPart }
      else s1
    { s2 with processedLength := newContent.length }

/-- The `isCompleted` watcher: when completion is signalled and content is
still accumulated, render it (if not whitespace-only) and clear the buffer. -/
def finalizeStream (env : Env) (s : CompState) : CompState :=
  if !(s.accumulatedMarkdown == []) then
    let s1 :=
      if !(jsTrim s.accumulatedMarkdown == []) then
        appendNewContent env s.accumulatedMarkdown s
      else s
    { s1 with accumulatedMarkdown := [] }
  else s

example :
    (handleContentUpdate idEnv ("# t\nx".data) initialCompState).renderBlocks =
      [⟨("md-block-0".data), ("# t\n".data)⟩] := by decide

example :
    (handleContentUpdate idEnv ("# t\nx".data)
      initialCompState).accumulatedMarkdown = ("x".data) := by decide

/-! ## Claim C10: empty content clears all state -/

/-- C10: when the content update handler receives an empty (or absent,
which Vue delivers as the `''` default) content value, the component clears
all four pieces of state — stored blocks, processed-length cursor, identifier
counter and accumulated buffer — and renders nothing, regardless of the
previous state. -/
theorem c10_empty_content_clears_state (env : Env) (s : CompState) :
    handleContentUpdate env [] s = initialCompState := rfl

/-! ## Claim C7: a shrinking total length restarts the stream -/

/-- C7: an update whose total length is strictly smaller than the previously
observed length behaves exactly like feeding the content to a fresh component:
block store, processed-length cursor, identifier counter and accumulated
buffer are cleared before the new content is processed from the beginning. -/
theorem c7_shrink_resets_stream (env : Env) (c : Str) (s : CompState)
    (h : c.length < s.processedLength) :
    handleContentUpdate env c s = handleContentUpdate env c initialCompState := by
  by_cases hc : c = []
  · subst hc; rfl
  · have hne : (c == []) = false := by
      simpa using hc
    unfold handleContentUpdate
    rw [hne]
    simp only [Bool.false_eq_true, if_false]
    rw [if_pos h]
    have h0 : ¬ c.length < initialCompState.processedLength := by
      simp [initialCompState]
    rw [if_neg h0]

/-- Witness for C7 at a concrete input: previous observed length `5`,
new total content `ab`. -/
theorem c7_shrink_resets_stream_witness :
    ("ab".data).length < (CompState.mk [] 5 0 []).processedLength ∧
      handleContentUpdate idEnv ("ab".data) (CompState.mk [] 5 0 []) =
        handleContentUpdate idEnv ("ab".data) initialCompState :=
  ⟨by decide, c7_shrink_resets_stream idEnv ("ab".data) ⟨[], 5, 0, []⟩ (by decide)⟩

/-! ## Claim C8: conversion/sanitization failure falls back to a plain block -/

/-- C8: if the converter throws on a flushed chunk, or the configured
sanitizer throws on the converted HTML, no error escapes `appendNewContent`:
the raw chunk is sanitized with the plain sanitizer and appended as a new
block under a fresh identifier. -/
theorem c8_conversion_failure_fallback (env : Env) (p : Str) (s : CompState)
    (h : env.marked p = none ∨
      ∃ html, env.marked p = some html ∧ env.sanitize html = none) :
    appendNewContent env p s =
      { s with
          renderBlocks :=
            s.renderBlocks ++ [⟨mkBlockId s.blockCounter, env.sanitizePlain p⟩]
          blockCounter := s.blockCounter + 1 } := by
  unfold appendNewContent pushNewBlock
  rcases h with h | ⟨html, h1, h2⟩
  · rw [h]
  · rw [h1]
    simp only []
    rw [h2]

/-- An environment whose converter always throws. -/
def throwingEnv : Env := ⟨fun _ => none, fun h => some h, fun h => h⟩

/-- Witness for C8: with a converter that throws on the chunk `hi`, the chunk
itself is stored as a fresh block. -/
theorem c8_conversion_failure_fallback_witness :
    throwingEnv.marked ("hi".data) = none ∧
      appendNewContent throwingEnv ("hi".data) initialCompState =
        ⟨[⟨("md-block-0".data), ("hi".data)⟩], 0, 1, []⟩ :=
  ⟨rfl, c8_conversion_failure_fallback throwingEnv ("hi".data) initialCompState
    (Or.inl rfl)⟩

/-! ## Claim C5: size-based overflow fallback -/

/-- The accumulator scan stays below the end offset. -/
theorem jsLastIndexOfAux_lt (c : Char) (s : Str) (i best : Int)
    (h : best < i) : jsLastIndexOfAux c s i best < i + s.length := by
  induction s generalizing i best with
  | nil => simpa [jsLastIndexOfAux] using h
  | cons x rest ih =>
    simp only [jsLastIndexOfAux, List.length_cons]
    have h2 : (if x == c then i else best) < i + 1 := by
      by_cases hx : x == c <;> simp [hx] <;> omega
    have := ih (i + 1) (if x == c then i else best) h2
    push_cast at *
    omega

/-- `jsLastIndexOf` is always below the length. -/
theorem jsLastIndexOf_lt_length (c : Char) (s : Str) :
    jsLastIndexOf c s < (s.length : Int) := by
  have := jsLastIndexOfAux_lt c s 0 (-1) (by omega)
  unfold jsLastIndexOf
  omega

/-- A result of the accumulator scan is either the starting accumulator or an
offset (relative to `i`) of an occurrence of the character. -/
theorem jsLastIndexOfAux_getElem (c : Char) (s : Str) (i best : Int) :
    jsLastIndexOfAux c s i best = best ∨
      (i ≤ jsLastIndexOfAux c s i best ∧
        s[(jsLastIndexOfAux c s i best - i).toNat]? = some c) := by
  induction s generalizing i best with
  | nil => left; simp [jsLastIndexOfAux]
  | cons x rest ih =>
    simp only [jsLastIndexOfAux]
    rcases ih (i + 1) (if x == c then i else best) with h | ⟨h1, h2⟩
    · by_cases hx : x == c
      · right
        rw [h, if_pos hx]
        refine ⟨le_refl i, ?_⟩
        have : ((i : Int) - i).toNat = 0 := by omega
        rw [this]
        simp [beq_iff_eq.mp hx]
      · left
        rw [h, if_neg hx]
    · right
      refine ⟨by omega, ?_⟩
      have ht : (jsLastIndexOfAux c rest (i + 1) (if x == c then i else best)
          - i).toNat =
          (jsLastIndexOfAux c rest (i + 1) (if x == c then i else best)
            - (i + 1)).toNat + 1 := by
        omega
      rw [ht]
      simpa using h2

/-- A nonnegative `jsLastIndexOf` result points at an occurrence of the
character. -/
theorem jsLastIndexOf_getElem (c : Char) (s : Str) (h : 0 ≤ jsLastIndexOf c s) :
    s[(jsLastIndexOf c s).toNat]? = some c := by
  rcases jsLastIndexOfAux_getElem c s 0 (-1) with h1 | ⟨h1, h2⟩
  · unfold jsLastIndexOf at h
    omega
  · unfold jsLastIndexOf
    simpa using h2

/-- C5: when the accumulated buffer is non-empty, the boundary detector found
no boundary, the buffer exceeds 1000 characters and the offset of its last
newline exceeds 100, then `processAccumulatedContent` forces a flush exactly
at that newline: the chunk up to and including the last newline is handed to
the render pipeline, the suffix after it becomes the new buffer, and the
flushed chunk ends with a newline (the forced boundary is newline-aligned). -/
theorem c5_overflow_fallback (env : Env) (s : CompState)
    (h0 : s.accumulatedMarkdown ≠ [])
    (h1 : detectBlockBoundaries s.accumulatedMarkdown = [])
    (h2 : s.accumulatedMarkdown.length > 1000)
    (h3 : jsLastIndexOf '\n' s.accumulatedMarkdown > 100) :
    processAccumulatedContent env s =
      { appendNewContent env
          (jsSubstring s.accumulatedMarkdown 0
            (jsLastIndexOf '\n' s.accumulatedMarkdown + 1)) s with
          accumulatedMarkdown :=
            jsSubstringFrom s.accumulatedMarkdown
              (jsLastIndexOf '\n' s.accumulatedMarkdown + 1) } ∧
    (jsSubstring s.accumulatedMarkdown 0
        (jsLastIndexOf '\n' s.accumulatedMarkdown + 1)).getLast? = some '\n' := by
  constructor
  · have hne : (s.accumulatedMarkdown == []) = false := by
      simpa using h0
    unfold processAccumulatedContent boundaryFlushPhase overflowFallbackPhase
    rw [hne]
    simp only [Bool.false_eq_true, if_false, h1, List.length_nil]
    rw [if_neg (by omega : ¬ (0 : Nat) > 0)]
    rw [if_pos h2, if_pos h3]
  · set l := jsLastIndexOf '\n' s.accumulatedMarkdown with hl
    have hpos : 0 ≤ l := by omega
    have hlt : l < (s.accumulatedMarkdown.length : Int) :=
      jsLastIndexOf_lt_length '\n' s.accumulatedMarkdown
    have hsub : jsSubstring s.accumulatedMarkdown 0 (l + 1) =
        s.accumulatedMarkdown.take (l + 1).toNat := by
      unfold jsSubstring
      have e1 : min (max (0 : Int) 0) (s.accumulatedMarkdown.length : Int) = 0 := by
        omega
      have e2 : min (max (l + 1) 0) (s.accumulatedMarkdown.length : Int) = l + 1 := by
        omega
      simp only [e1, e2]
      rw [min_eq_left (by omega), max_eq_right (by omega)]
      simp
    rw [hsub]
    have hget := jsLastIndexOf_getElem '\n' s.accumulatedMarkdown hpos
    have htn : (l + 1).toNat = l.toNat + 1 := by omega
    have hlen : l.toNat + 1 ≤ s.accumulatedMarkdown.length := by omega
    rw [htn]
    rw [List.getLast?_eq_getElem?]
    have hlt2 : l.toNat < l.toNat + 1 := by omega
    rw [List.length_take]
    have hmin : min (l.toNat + 1) s.accumulatedMarkdown.length = l.toNat + 1 := by
      omega
    rw [hmin]
    simp only [Nat.add_sub_cancel]
    rw [List.getElem?_take]
    rw [if_pos hlt2]
    exact hget

/-- Concrete buffer for the C5 witness: one 600-character line, a newline,
then a 500-character line; 1101 characters with the last newline at
offset 600. -/
def c5buf : Str := List.replicate 600 'a' ++ '\n' :: List.replicate 500 'b'

/-- Witness for C5: a single long two-line paragraph with no blank lines and
no fences exceeds the threshold and is force-flushed at its newline. -/
theorem c5_overflow_fallback_witness :
    c5buf ≠ [] ∧ detectBlockBoundaries c5buf = [] ∧ c5buf.length > 1000 ∧
      jsLastIndexOf '\n' c5buf > 100 ∧
      (processAccumulatedContent idEnv ⟨[], 0, 0, c5buf⟩ =
        { appendNewContent idEnv
            (jsSubstring c5buf 0 (jsLastIndexOf '\n' c5buf + 1))
            ⟨[], 0, 0, c5buf⟩ with
            accumulatedMarkdown :=
              jsSubstringFrom c5buf (jsLastIndexOf '\n' c5buf + 1) } ∧
        (jsSubstring c5buf 0 (jsLastIndexOf '\n' c5buf + 1)).getLast? =
          some '\n') :=
  ⟨by decide, by decide, by decide, by decide,
    c5_overflow_fallback idEnv ⟨[], 0, 0, c5buf⟩ (by decide) (by decide)
      (by decide) (by decide)⟩

/-! ## Identifier uniqueness infrastructure -/

/-- Value of a decimal digit character. -/
def decDigitVal (c : Char) : Nat := c.toNat - 48

theorem decDigitVal_digitChar (n : Nat) (h : n < 10) :
    decDigitVal (digitChar n) = n := by
  interval_cases n <;> rfl

/-- Decimal evaluation, the left inverse of `natDec`. -/
def decVal (s : Str) : Nat := s.foldl (fun a c => a * 10 + decDigitVal c) 0

theorem decVal_append_digit (s : Str) (c : Char) :
    decVal (s ++ [c]) = decVal s * 10 + decDigitVal c := by
  simp [decVal, List.foldl_append]

theorem decVal_natDecF (fuel n : Nat) (h : n < fuel) :
    decVal (natDecF fuel n) = n := by
  induction fuel generalizing n with
  | zero => omega
  | succ fuel ih =>
    by_cases h10 : n < 10
    · simp [natDecF, h10, decVal, decDigitVal_digitChar n h10]
    · have hdiv : n / 10 < fuel := by
        have : n / 10 < n := Nat.div_lt_self (by omega) (by omega)
        omega
      simp only [natDecF, h10, if_false]
      rw [decVal_append_digit, ih (n / 10) hdiv,
        decDigitVal_digitChar (n % 10) (Nat.mod_lt n (by omega))]
      omega

theorem natDec_inj {m n : Nat} (h : natDec m = natDec n) : m = n := by
  have hm := decVal_natDecF (m + 1) m (by omega)
  have hn := decVal_natDecF (n + 1) n (by omega)
  unfold natDec at h
  rw [← hm, ← hn, h]

theorem mkBlockId_inj {m n : Nat} (h : mkBlockId m = mkBlockId n) : m = n :=
  natDec_inj (List.append_cancel_left h)

/-- `mergeBlocks` preserves the identifier of the block it updates
(`updatedBlock = {...lastBlock}` keeps `id`). -/
theorem mergeBlocks_id (lb : Block) (cur : Str) (blk : Block)
    (h : mergeBlocks lb cur = some blk) : blk.id = lb.id := by
  unfold mergeBlocks at h
  simp only [] at h
  split_ifs at h <;> simp_all <;> subst h <;> rfl

/-! ## Store evolution: the frame properties of the block store -/

theorem getElem?_append_lt {α : Type} (l₁ l₂ : List α) (i : Nat)
    (h : i < l₁.length) : (l₁ ++ l₂)[i]? = l₁[i]? := by
  rw [List.getElem?_append, if_pos h]

theorem getElem?_dropLast {α : Type} (l : List α) (i : Nat)
    (h : i < l.length - 1) : l.dropLast[i]? = l[i]? := by
  rw [List.dropLast_eq_take, List.getElem?_take, if_pos h]

/-- The identifier well-formedness invariant of the store: every stored block
is identified by `md-block-k` for some `k` below the counter, and the
identifiers are pairwise distinct. -/
def IdInv (s : CompState) : Prop :=
  (∀ b ∈ s.renderBlocks, ∃ k, k < s.blockCounter ∧ b.id = mkBlockId k) ∧
    (s.renderBlocks.map Block.id).Nodup

/-- How one render-pipeline step may change the store: the store only grows,
the counter only grows, every already-stored position keeps its identifier,
every position other than the last keeps its whole block, and identifier
well-formedness (hence uniqueness) is preserved. -/
def StoreEvolves (old new : CompState) : Prop :=
  old.renderBlocks.length ≤ new.renderBlocks.length ∧
    old.blockCounter ≤ new.blockCounter ∧
    (∀ (i : Nat) (blk : Block), old.renderBlocks[i]? = some blk →
      ∃ blk' : Block, new.renderBlocks[i]? = some blk' ∧ blk'.id = blk.id) ∧
    (∀ (i : Nat) (blk : Block), i + 1 < old.renderBlocks.length →
      old.renderBlocks[i]? = some blk → new.renderBlocks[i]? = some blk) ∧
    (IdInv old → IdInv new)

theorem storeEvolves_refl (s : CompState) : StoreEvolves s s :=
  ⟨le_refl _, le_refl _, fun _ blk h => ⟨blk, h, rfl⟩, fun _ _ _ h => h,
    fun h => h⟩

theorem storeEvolves_trans {s1 s2 s3 : CompState} (h12 : StoreEvolves s1 s2)
    (h23 : StoreEvolves s2 s3) : StoreEvolves s1 s3 := by
  obtain ⟨a12, b12, c12, d12, e12⟩ := h12
  obtain ⟨a23, b23, c23, d23, e23⟩ := h23
  refine ⟨le_trans a12 a23, le_trans b12 b23, ?_, ?_, fun h => e23 (e12 h)⟩
  · intro i blk h
    obtain ⟨blk', h', hid⟩ := c12 i blk h
    obtain ⟨blk'', h'', hid'⟩ := c23 i blk' h'
    exact ⟨blk'', h'', by rw [hid', hid]⟩
  · intro i blk hi h
    have h2 := d12 i blk hi h
    exact d23 i blk (by omega) h2

/-- Fields other than the store and the counter are irrelevant to
`StoreEvolves`. -/
theorem storeEvolves_copy {s1 s2 s3 : CompState} (h : StoreEvolves s1 s2)
    (hb : s2.renderBlocks = s3.renderBlocks)
    (hc : s2.blockCounter = s3.blockCounter) : StoreEvolves s1 s3 := by
  obtain ⟨a, b, c, d, e⟩ := h
  refine ⟨hb ▸ a, hc ▸ b, hb ▸ c, hb ▸ d, ?_⟩
  intro hinv
  have := e hinv
  unfold IdInv at *
  rw [hb, hc] at this
  exact this

theorem pushNewBlock_evolves (s : CompState) (b : Str) :
    StoreEvolves s (pushNewBlock s b) := by
  unfold pushNewBlock
  refine ⟨by simp, by simp, ?_, ?_, ?_⟩
  · intro i blk h
    have hi : i < s.renderBlocks.length := (List.getElem?_eq_some.mp h).1
    exact ⟨blk, by rw [getElem?_append_lt _ _ _ hi]; exact h, rfl⟩
  · intro i blk hi h
    have hi' : i < s.renderBlocks.length := by omega
    rw [getElem?_append_lt _ _ _ hi']
    exact h
  · rintro ⟨h1, h2⟩
    constructor
    · intro blk hmem
      simp only [List.mem_append, List.mem_singleton] at hmem
      rcases hmem with hmem | rfl
      · obtain ⟨k, hk, hid⟩ := h1 blk hmem
        exact ⟨k, by simp; omega, hid⟩
      · exact ⟨s.blockCounter, by simp, rfl⟩
    · simp only [List.map_append, List.map_cons, List.map_nil]
      rw [List.nodup_append]
      refine ⟨h2, List.nodup_singleton _, ?_⟩
      intro x hx hx'
      simp only [List.mem_singleton] at hx'
      subst hx'
      simp only [List.mem_map] at hx
      obtain ⟨blk, hmem, hid⟩ := hx
      obtain ⟨k, hk, hid'⟩ := h1 blk hmem
      rw [hid'] at hid
      have := mkBlockId_inj hid
      omega

theorem appendBlockStep_evolves (s : CompState) (b : Str) :
    StoreEvolves s (appendBlockStep s b) := by
  unfold appendBlockStep
  by_cases ht : (jsTrim b == []) = true
  · simp only [ht, Bool.not_true, Bool.false_eq_true, if_false]
    exact storeEvolves_refl s
  · simp only [eq_false_of_ne_true ht, Bool.not_false, if_true]
    cases hL : s.renderBlocks.getLast? with
    | none => exact pushNewBlock_evolves s b
    | some lastBlock =>
      by_cases hm : shouldMergeBlocks lastBlock.html b = true
      · simp only [hm, if_true]
        by_cases hc : containsImage lastBlock.html = true
        · simp only [hc, if_true]
          exact pushNewBlock_evolves s b
        · simp only [eq_false_of_ne_true hc, Bool.false_eq_true, if_false]
          cases hMB : mergeBlocks lastBlock b with
          | none => exact storeEvolves_refl s
          | some merged =>
            have hid : merged.id = lastBlock.id := mergeBlocks_id _ _ _ hMB
            have hlen1 : 1 ≤ s.renderBlocks.length := by
              cases hrb : s.renderBlocks with
              | nil => rw [hrb] at hL; simp at hL
              | cons x xs => simp [hrb]
            have hlenD : s.renderBlocks.dropLast.length =
                s.renderBlocks.length - 1 := by
              simp
            have hlast : s.renderBlocks[s.renderBlocks.length - 1]? =
                some lastBlock := by
              rw [← List.getLast?_eq_getElem?]
              exact hL
            refine ⟨by simp; omega, le_refl _, ?_, ?_, ?_⟩
            · intro i blk h
              have hi : i < s.renderBlocks.length :=
                (List.getElem?_eq_some.mp h).1
              by_cases hilast : i < s.renderBlocks.length - 1
              · refine ⟨blk, ?_, rfl⟩
                rw [getElem?_append_lt _ _ _ (by omega),
                  getElem?_dropLast _ _ hilast]
                exact h
              · have hieq : i = s.renderBlocks.length - 1 := by omega
                refine ⟨merged, ?_, ?_⟩
                · rw [List.getElem?_append, if_neg (by omega)]
                  rw [hlenD, hieq]
                  simp
                · rw [hid]
                  rw [hieq, hlast] at h
                  cases h
                  rfl
            · intro i blk hi h
              rw [getElem?_append_lt _ _ _ (by omega),
                getElem?_dropLast _ _ (by omega)]
              exact h
            · rintro ⟨h1, h2⟩
              have hmap : (s.renderBlocks.dropLast ++ [merged]).map Block.id =
                  s.renderBlocks.map Block.id := by
                rw [List.map_append, List.map_dropLast]
                simp only [List.map_cons, List.map_nil]
                apply List.dropLast_append_getLast?
                rw [List.getLast?_map, hL, hid]
                rfl
              constructor
              · intro blk hmem
                simp only [List.mem_append, List.mem_singleton] at hmem
                rcases hmem with hmem | rfl
                · exact h1 blk (List.mem_of_mem_dropLast hmem)
                · obtain ⟨k, hk, hidk⟩ :=
                    h1 lastBlock (List.mem_of_mem_getLast? hL)
                  exact ⟨k, hk, by rw [hid, hidk]⟩
              · rw [hmap]
                exact h2
      · simp only [eq_false_of_ne_true hm, Bool.false_eq_true, if_false]
        exact pushNewBlock_evolves s b

theorem foldl_appendBlockStep_evolves (bs : List Str) (s : CompState) :
    StoreEvolves s (bs.foldl appendBlockStep s) := by
  induction bs generalizing s with
  | nil => exact storeEvolves_refl s
  | cons b rest ih =>
    exact storeEvolves_trans (appendBlockStep_evolves s b) (ih _)

theorem appendNewContent_evolves (env : Env) (p : Str) (s : CompState) :
    StoreEvolves s (appendNewContent env p s) := by
  rcases henv : env.marked p with _ | html
  · have he : appendNewContent env p s = pushNewBlock s (env.sanitizePlain p) := by
      simp only [appendNewContent, henv]
    rw [he]
    exact pushNewBlock_evolves s _
  · rcases hs : env.sanitize html with _ | cleanHtml
    · have he : appendNewContent env p s =
          pushNewBlock s (env.sanitizePlain p) := by
        simp only [appendNewContent, henv, hs]
      rw [he]
      exact pushNewBlock_evolves s _
    · have he : appendNewContent env p s = List.foldl appendBlockStep s
          (splitIntoCompleteBlocks (styleTables cleanHtml)) := by
        simp only [appendNewContent, henv, hs]
      rw [he]
      exact foldl_appendBlockStep_evolves _ s

theorem foldl_flushChunkStep_evolves (env : Env) (md : Str) (bs : List Int)
    (acc : CompState × Int) :
    StoreEvolves acc.1 (bs.foldl (flushChunkStep env md) acc).1 := by
  induction bs generalizing acc with
  | nil => exact storeEvolves_refl _
  | cons b rest ih =>
    simp only [List.foldl_cons]
    refine storeEvolves_trans ?_ (ih (flushChunkStep env md acc b))
    unfold flushChunkStep
    by_cases h : (jsTrim (jsSubstring md acc.2 (b + 1)) == []) = true
    · simp only [h, Bool.not_true, Bool.false_eq_true, if_false]
      exact storeEvolves_refl _
    · simp only [eq_false_of_ne_true h, Bool.not_false, if_true]
      exact appendNewContent_evolves env _ acc.1

theorem boundaryFlushPhase_evolves (env : Env) (s : CompState) :
    StoreEvolves s (boundaryFlushPhase env s) := by
  unfold boundaryFlushPhase
  by_cases hb : (detectBlockBoundaries s.accumulatedMarkdown).length > 0
  · rw [if_pos hb]
    exact storeEvolves_copy
      (foldl_flushChunkStep_evolves env s.accumulatedMarkdown
        (detectBlockBoundaries s.accumulatedMarkdown) (s, 0)) rfl rfl
  · rw [if_neg hb]
    exact storeEvolves_refl s

theorem overflowFallbackPhase_evolves (env : Env) (s1 : CompState) :
    StoreEvolves s1 (overflowFallbackPhase env s1) := by
  unfold overflowFallbackPhase
  by_cases h2 : s1.accumulatedMarkdown.length > 1000
  · rw [if_pos h2]
    by_cases h3 : jsLastIndexOf '\n' s1.accumulatedMarkdown > 100
    · rw [if_pos h3]
      exact storeEvolves_copy (appendNewContent_evolves env _ s1) rfl rfl
    · rw [if_neg h3]
      exact storeEvolves_refl s1
  · rw [if_neg h2]
    exact storeEvolves_refl s1

theorem processAccumulatedContent_evolves (env : Env) (s : CompState) :
    StoreEvolves s (processAccumulatedContent env s) := by
  unfold processAccumulatedContent
  by_cases h0 : (s.accumulatedMarkdown == []) = true
  · rw [if_pos h0]
    exact storeEvolves_refl s
  · rw [if_neg h0]
    exact storeEvolves_trans (boundaryFlushPhase_evolves env s)
      (overflowFallbackPhase_evolves env _)

/-! ## Claim C3: the store is append-only with stable identifiers -/

/-- C3: any content update that is not a reset (non-empty content whose total
length has not shrunk) only ever grows the block store: every already-stored
position keeps its identifier, every position except the last keeps its whole
block (merges rewrite only the last block's `html`), the identifier counter
never decreases, and identifier well-formedness — ids are `md-block-k` with
`k` below the counter and pairwise distinct — is preserved. -/
theorem c3_store_append_only_ids_stable (env : Env) (c : Str) (s : CompState)
    (hne : c ≠ []) (hlen : s.processedLength ≤ c.length) :
    StoreEvolves s (handleContentUpdate env c s) := by
  have hc : (c == []) = false := by simpa using hne
  unfold handleContentUpdate
  rw [hc]
  simp only [Bool.false_eq_true, if_false]
  rw [if_neg (by omega : ¬ c.length < s.processedLength)]
  by_cases hp : (jsSubstringFrom c (s.processedLength : Int) == []) = true
  · simp only [hp, Bool.not_true, Bool.false_eq_true, if_false]
    exact storeEvolves_copy (storeEvolves_refl s) rfl rfl
  · simp only [eq_false_of_ne_true hp, Bool.not_false, if_true]
    refine storeEvolves_copy (storeEvolves_trans ?_
      (processAccumulatedContent_evolves env _)) rfl rfl
    exact storeEvolves_copy (storeEvolves_refl s) rfl rfl

/-- Witness for C3: a concrete non-reset update on a store holding two blocks,
one of which is an open list that the update's chunk would extend. -/
theorem c3_store_append_only_ids_stable_witness :
    ("x\n\n\ny".data ≠ []) ∧ (2 : Nat) ≤ ("x\n\n\ny".data).length ∧
      StoreEvolves ⟨[⟨mkBlockId 0, ("<p>a</p>".data)⟩], 2, 1, []⟩
        (handleContentUpdate idEnv ("x\n\n\ny".data)
          ⟨[⟨mkBlockId 0, ("<p>a</p>".data)⟩], 2, 1, []⟩) :=
  ⟨by decide, by decide,
    c3_store_append_only_ids_stable idEnv ("x\n\n\ny".data)
      ⟨[⟨mkBlockId 0, ("<p>a</p>".data)⟩], 2, 1, []⟩ (by decide) (by decide)⟩

/-! ## Claim C2: blocks containing an image are frozen -/

theorem pushNewBlock_getElem (s : CompState) (b : Str) (i : Nat)
    (hi : i < s.renderBlocks.length) :
    (pushNewBlock s b).renderBlocks[i]? = s.renderBlocks[i]? := by
  unfold pushNewBlock
  exact getElem?_append_lt _ _ _ hi

/-- One merge-or-append step never changes a stored block whose HTML contains
an image: merging is refused on such a block, and all other outcomes touch at
most the last non-image block or append at the end. -/
theorem appendBlockStep_frozen (s : CompState) (b : Str) (i : Nat)
    (blk : Block) (hget : s.renderBlocks[i]? = some blk)
    (himg : containsImage blk.html = true) :
    (appendBlockStep s b).renderBlocks[i]? = some blk := by
  have hi : i < s.renderBlocks.length := (List.getElem?_eq_some.mp hget).1
  unfold appendBlockStep
  by_cases ht : (jsTrim b == []) = true
  · simp only [ht, Bool.not_true, Bool.false_eq_true, if_false]
    exact hget
  · simp only [eq_false_of_ne_true ht, Bool.not_false, if_true]
    cases hL : s.renderBlocks.getLast? with
    | none => rw [pushNewBlock_getElem s b i hi]; exact hget
    | some lastBlock =>
      by_cases hm : shouldMergeBlocks lastBlock.html b = true
      · simp only [hm, if_true]
        by_cases hc : containsImage lastBlock.html = true
        · simp only [hc, if_true]
          rw [pushNewBlock_getElem s b i hi]; exact hget
        · simp only [eq_false_of_ne_true hc, Bool.false_eq_true, if_false]
          cases hMB : mergeBlocks lastBlock b with
          | none => exact hget
          | some merged =>
            have hlast : s.renderBlocks[s.renderBlocks.length - 1]? =
                some lastBlock := by
              rw [← List.getLast?_eq_getElem?]; exact hL
            have hne : i ≠ s.renderBlocks.length - 1 := by
              intro he
              rw [he, hlast] at hget
              cases hget
              exact hc himg
            rw [getElem?_append_lt _ _ _ (by simp; omega),
              getElem?_dropLast _ _ (by omega)]
            exact hget
      · simp only [eq_false_of_ne_true hm, Bool.false_eq_true, if_false]
        rw [pushNewBlock_getElem s b i hi]; exact hget

theorem foldl_appendBlockStep_frozen (bs : List Str) (s : CompState) (i : Nat)
    (blk : Block) (hget : s.renderBlocks[i]? = some blk)
    (himg : containsImage blk.html = true) :
    (bs.foldl appendBlockStep s).renderBlocks[i]? = some blk := by
  induction bs generalizing s with
  | nil => exact hget
  | cons b rest ih =>
    exact ih (appendBlockStep s b) (appendBlockStep_frozen s b i blk hget himg)

/-- C2, part 1 packaged over the whole render pipeline call, part 2 the
merge-refusal outcome: once a stored block's HTML contains an `<img>`,
`appendNewContent` leaves that block untouched — and whenever the merge rules
would merge new content into an image-bearing last block, a fresh block is
appended instead. -/
theorem c2_image_block_frozen :
    (∀ (env : Env) (p : Str) (s : CompState) (i : Nat) (blk : Block),
      s.renderBlocks[i]? = some blk → containsImage blk.html = true →
        (appendNewContent env p s).renderBlocks[i]? = some blk) ∧
    (∀ (s : CompState) (b : Str) (lastBlock : Block),
      s.renderBlocks.getLast? = some lastBlock →
        containsImage lastBlock.html = true →
        shouldMergeBlocks lastBlock.html b = true →
        (jsTrim b == []) = false →
        appendBlockStep s b = pushNewBlock s b) := by
  constructor
  · intro env p s i blk hget himg
    have hi : i < s.renderBlocks.length := (List.getElem?_eq_some.mp hget).1
    rcases henv : env.marked p with _ | html
    · have he : appendNewContent env p s =
          pushNewBlock s (env.sanitizePlain p) := by
        simp only [appendNewContent, henv]
      rw [he, pushNewBlock_getElem s _ i hi]
      exact hget
    · rcases hs : env.sanitize html with _ | cleanHtml
      · have he : appendNewContent env p s =
            pushNewBlock s (env.sanitizePlain p) := by
          simp only [appendNewContent, henv, hs]
        rw [he, pushNewBlock_getElem s _ i hi]
        exact hget
      · have he : appendNewContent env p s = List.foldl appendBlockStep s
            (splitIntoCompleteBlocks (styleTables cleanHtml)) := by
          simp only [appendNewContent, henv, hs]
        rw [he]
        exact foldl_appendBlockStep_frozen _ s i blk hget himg
  · intro s b lastBlock hL hc hm ht
    unfold appendBlockStep
    simp only [ht, Bool.not_false, if_true, hL, hm, hc, if_true]

/-- Witness for C2: a store holding an image paragraph, then an update whose
new block is a mergeable paragraph (part 1, via the full pipeline), and a
merge-eligible list continuation refused because the open list already shows
an image (part 2). -/
theorem c2_image_block_frozen_witness :
    ((⟨[⟨mkBlockId 0, ("<p>x<img src=\x22a\x22></p>".data)⟩], 0, 1,
        []⟩ : CompState).renderBlocks[0]? =
      some ⟨mkBlockId 0, ("<p>x<img src=\x22a\x22></p>".data)⟩ ∧
     containsImage ("<p>x<img src=\x22a\x22></p>".data) = true ∧
     (appendNewContent idEnv ("<p>y</p>".data)
        ⟨[⟨mkBlockId 0, ("<p>x<img src=\x22a\x22></p>".data)⟩], 0, 1,
          []⟩).renderBlocks[0]? =
       some ⟨mkBlockId 0, ("<p>x<img src=\x22a\x22></p>".data)⟩) ∧
    ((⟨[⟨mkBlockId 0, ("<ul><li><img src=\x22a\x22></li>".data)⟩], 0, 1,
        []⟩ : CompState).renderBlocks.getLast? =
      some ⟨mkBlockId 0, ("<ul><li><img src=\x22a\x22></li>".data)⟩ ∧
     shouldMergeBlocks ("<ul><li><img src=\x22a\x22></li>".data)
       ("<li>b</li>".data) = true ∧
     appendBlockStep
        ⟨[⟨mkBlockId 0, ("<ul><li><img src=\x22a\x22></li>".data)⟩], 0, 1, []⟩
        ("<li>b</li>".data) =
       pushNewBlock
        ⟨[⟨mkBlockId 0, ("<ul><li><img src=\x22a\x22></li>".data)⟩], 0, 1, []⟩
        ("<li>b</li>".data)) :=
  ⟨⟨by decide, by decide,
    c2_image_block_frozen.1 idEnv ("<p>y</p>".data)
      ⟨[⟨mkBlockId 0, ("<p>x<img src=\x22a\x22></p>".data)⟩], 0, 1, []⟩ 0
      ⟨mkBlockId 0, ("<p>x<img src=\x22a\x22></p>".data)⟩ (by decide)
      (by decide)⟩,
   ⟨by decide, by decide,
    c2_image_block_frozen.2
      ⟨[⟨mkBlockId 0, ("<ul><li><img src=\x22a\x22></li>".data)⟩], 0, 1, []⟩
      ("<li>b</li>".data) ⟨mkBlockId 0, ("<ul><li><img src=\x22a\x22></li>".data)⟩
      (by decide) (by decide) (by decide) (by decide)⟩⟩

/-! ## Claim C4: the paragraph merge rule -/

theorem isParagraphBlock_ne_empty {L : Str} (h : isParagraphBlock L = true) :
    (L == []) = false := by
  cases L with
  | nil => exact absurd h (by decide)
  | cons c rest => rfl

/-- Removing the anchored trailing `</p>` from anything that ends in `</p>`
leaves the prefix, with no side condition. -/
theorem replaceCloseTagEnd_p (a : Str) :
    replaceCloseTagEnd (fun c => c) ("p".data) (a ++ ("</p>".data)) = a := by
  have hrev : (a ++ ("</p>".data)).reverse =
      '>' :: 'p' :: '/' :: '<' :: a.reverse := by
    rw [List.reverse_append,
      show (("</p>".data) : Str).reverse = ['>', 'p', '/', '<'] from by decide]
    rfl
  have hdw : List.dropWhile isWS ('>' :: 'p' :: '/' :: '<' :: a.reverse) =
      '>' :: 'p' :: '/' :: '<' :: a.reverse := rfl
  unfold replaceCloseTagEnd
  rw [hrev, hdw,
    show (("</".data ++ ("p".data) ++ (">".data)) : Str).reverse =
      ['>', 'p', '/', '<'] from by decide]
  rw [if_pos (show
    ((['>', 'p', '/', '<'] : Str)).isPrefixOf
      (('>' :: 'p' :: '/' :: '<' :: a.reverse).map (fun c => c)) = true by
    rw [List.map_id', List.isPrefixOf_iff_prefix]
    exact List.prefix_append _ _)]
  rw [show (("p".data) : Str).length + 3 = 4 from by decide]
  rw [show List.drop 4 ('>' :: 'p' :: '/' :: '<' :: a.reverse) = a.reverse
    from rfl]
  exact List.reverse_reverse a

theorem replacePOpen_wrap (b : Str) :
    replacePOpen (("<p>".data) ++ b ++ ("</p>".data)) = b ++ ("</p>".data) :=
  rfl

/-- C4: (1) the pipeline performs a paragraph merge exactly when the last
block is a complete `<p>…</p>` span, the new block is a paragraph span, the
last block's tag-stripped text does not end in a sentence-terminating mark and
the last block contains no image (in either of the code's two senses: the
substring `<img` or a case-insensitive `<img…>` tag — the two coincide on
paragraph spans); (2) under those conditions the step rewrites only the last
block, to the code's merge formula; (3) on canonical paragraph spans that
formula is exactly the two inner contents concatenated and wrapped in a single
paragraph tag. -/
theorem c4_paragraph_merge_iff :
    (∀ L C : Str,
      (isParagraphBlock L && isParagraphBlock C && shouldMergeBlocks L C &&
        !containsImage L) =
      (isParagraphBlock L && isParagraphBlock C &&
        !endsWithSentenceMark (jsTrim (stripTags L)) && !hasImgSubstring L &&
        !containsImage L)) ∧
    (∀ (s : CompState) (lb : Block) (C : Str),
      s.renderBlocks.getLast? = some lb → (jsTrim C == []) = false →
      isParagraphBlock lb.html = true → isParagraphBlock C = true →
      endsWithSentenceMark (jsTrim (stripTags lb.html)) = false →
      hasImgSubstring lb.html = false → containsImage lb.html = false →
      appendBlockStep s C =
        { s with renderBlocks := s.renderBlocks.dropLast ++
            [⟨lb.id, replaceCloseTagEnd (fun c => c) ("p".data) lb.html ++
              replaceCloseTagEnd (fun c => c) ("p".data) (replacePOpen C) ++
              ("</p>".data)⟩] }) ∧
    (∀ a b : Str,
      replaceCloseTagEnd (fun c => c) ("p".data)
          (("<p>".data) ++ a ++ ("</p>".data)) ++
        replaceCloseTagEnd (fun c => c) ("p".data)
          (replacePOpen (("<p>".data) ++ b ++ ("</p>".data))) ++
        ("</p>".data) =
      ("<p>".data) ++ a ++ b ++ ("</p>".data)) := by
  refine ⟨?_, ?_, ?_⟩
  · intro L C
    by_cases hL : isParagraphBlock L = true
    · by_cases hC : isParagraphBlock C = true
      · have hsm : shouldMergeBlocks L C = !isParagraphComplete L := by
          unfold shouldMergeBlocks
          rw [isParagraphBlock_ne_empty hL, isParagraphBlock_ne_empty hC]
          simp only [Bool.or_self, Bool.false_eq_true, if_false, hL, hC,
            Bool.and_self, if_true]
        have hcmp : isParagraphComplete L =
            (endsWithSentenceMark (jsTrim (stripTags L)) ||
              hasImgSubstring L) := by
          unfold isParagraphComplete
          rw [isParagraphBlock_ne_empty hL]
          simp
        rw [hL, hC, hsm, hcmp]
        simp only [Bool.true_and, Bool.not_or, Bool.and_assoc]
      · have hC' : isParagraphBlock C = false := eq_false_of_ne_true hC
        rw [hC']
        simp
    · have hL' : isParagraphBlock L = false := eq_false_of_ne_true hL
      rw [hL']
      simp
  · intro s lb C hgl ht hpl hpc hends himg1 himg2
    have hcmp : isParagraphComplete lb.html = false := by
      unfold isParagraphComplete
      rw [hends, himg1]
      simp
    have hsm : shouldMergeBlocks lb.html C = true := by
      unfold shouldMergeBlocks
      rw [isParagraphBlock_ne_empty hpl, isParagraphBlock_ne_empty hpc]
      simp only [Bool.or_self, Bool.false_eq_true, if_false, hpl, hpc,
        Bool.and_self, if_true, hcmp, Bool.not_false]
    have hmb : mergeBlocks lb C =
        some ⟨lb.id, replaceCloseTagEnd (fun c => c) ("p".data) lb.html ++
          replaceCloseTagEnd (fun c => c) ("p".data) (replacePOpen C) ++
          ("</p>".data)⟩ := by
      unfold mergeBlocks
      simp only [hpl, hpc, Bool.and_self, if_true]
    unfold appendBlockStep
    simp only [ht, Bool.not_false, if_true, hgl, hsm, if_true, himg2,
      Bool.false_eq_true, if_false, hmb]
  · intro a b
    rw [replacePOpen_wrap]
    have h1 : ("<p>".data) ++ a ++ ("</p>".data) =
        (("<p>".data) ++ a) ++ ("</p>".data) := by
      simp [List.append_assoc]
    rw [h1, replaceCloseTagEnd_p, replaceCloseTagEnd_p]

/-- Witness for C4: merging `<p>ab</p>` with `<p>cd.</p>` in a one-block
store rewrites the single block in place to `<p>abcd.</p>`. -/
theorem c4_paragraph_merge_iff_witness :
    ((⟨[⟨mkBlockId 0, ("<p>ab</p>".data)⟩], 9, 1, []⟩ :
        CompState).renderBlocks.getLast? =
      some ⟨mkBlockId 0, ("<p>ab</p>".data)⟩) ∧
    (appendBlockStep ⟨[⟨mkBlockId 0, ("<p>ab</p>".data)⟩], 9, 1, []⟩
        ("<p>cd.</p>".data) =
      { (⟨[⟨mkBlockId 0, ("<p>ab</p>".data)⟩], 9, 1, []⟩ : CompState) with
          renderBlocks :=
            ([⟨mkBlockId 0, ("<p>ab</p>".data)⟩] : List Block).dropLast ++
            [⟨mkBlockId 0,
              replaceCloseTagEnd (fun c => c) ("p".data) ("<p>ab</p>".data) ++
              replaceCloseTagEnd (fun c => c) ("p".data)
                (replacePOpen ("<p>cd.</p>".data)) ++ ("</p>".data)⟩] }) ∧
    appendBlockStep ⟨[⟨mkBlockId 0, ("<p>ab</p>".data)⟩], 9, 1, []⟩
        ("<p>cd.</p>".data) =
      ⟨[⟨mkBlockId 0, ("<p>abcd.</p>".data)⟩], 9, 1, []⟩ :=
  ⟨by decide,
   c4_paragraph_merge_iff.2.1 ⟨[⟨mkBlockId 0, ("<p>ab</p>".data)⟩], 9, 1, []⟩
     ⟨mkBlockId 0, ("<p>ab</p>".data)⟩ ("<p>cd.</p>".data) (by decide)
     (by decide) (by decide) (by decide) (by decide) (by decide) (by decide),
   by decide⟩

/-! ## Claim C1: boundaries and fences -/

/-- `processHeading` does not touch the fence state or the cursor, and pushes
only `lineStartIndex - 1` and `lineEndIndex`. -/
theorem processHeading_inv (line : Str) (lineIndex lineEndIndex : Int)
    (st : ScanState) (bds : List Int) (lineStartIndex : Int) :
    (processHeading line lineIndex lineEndIndex st bds
        lineStartIndex).2.1.inCodeBlock = st.inCodeBlock ∧
    (processHeading line lineIndex lineEndIndex st bds
        lineStartIndex).2.1.codeBlockFence = st.codeBlockFence ∧
    (∀ b ∈ (processHeading line lineIndex lineEndIndex st bds
        lineStartIndex).2.2,
      b ∈ bds ∨ b = lineStartIndex - 1 ∨ b = lineEndIndex) := by
  unfold processHeading
  refine ⟨?_, ?_, ?_⟩
  · (repeat' (first | split | simp only [])) <;> rfl
  · (repeat' (first | split | simp only [])) <;> rfl
  · (repeat' (first | split | simp only [])) <;> intro b hb <;>
      (try simp only [List.mem_append, List.mem_singleton] at hb) <;>
      first
        | exact Or.inl hb
        | (rcases hb with hb | rfl
           · exact Or.inl hb
           · exact Or.inr (Or.inl rfl))
        | (rcases hb with (hb | rfl) | rfl
           · exact Or.inl hb
           · exact Or.inr (Or.inl rfl)
           · exact Or.inr (Or.inr rfl))
        | (rcases hb with hb | rfl
           · exact Or.inl hb
           · exact Or.inr (Or.inr rfl))

/-- `processListItem` does not touch the fence state or the cursor, and pushes
only `lineStartIndex - 1`. -/
theorem processListItem_inv (line : Str) (lineIndex : Int) (isEmptyLine : Bool)
    (lineEndIndex : Int) (st : ScanState) (bds : List Int)
    (lineStartIndex : Int) :
    (processListItem line lineIndex isEmptyLine lineEndIndex st bds
        lineStartIndex).2.1.inCodeBlock = st.inCodeBlock ∧
    (processListItem line lineIndex isEmptyLine lineEndIndex st bds
        lineStartIndex).2.1.codeBlockFence = st.codeBlockFence ∧
    (∀ b ∈ (processListItem line lineIndex isEmptyLine lineEndIndex st bds
        lineStartIndex).2.2,
      b ∈ bds ∨ b = lineStartIndex - 1) := by
  unfold processListItem
  refine ⟨?_, ?_, ?_⟩
  · (repeat' (first | split | simp only [])) <;> rfl
  · (repeat' (first | split | simp only [])) <;> rfl
  · (repeat' (first | split | simp only [])) <;> intro b hb <;>
      (try simp only [List.mem_append, List.mem_singleton] at hb) <;>
      first
        | exact Or.inl hb
        | (rcases hb with hb | rfl
           · exact Or.inl hb
           · exact Or.inr rfl)

/-- `processEmptyLine` does not touch the fence state or the cursor, and
pushes only `lineStartIndex - 1`. -/
theorem processEmptyLine_inv (line : Str) (lineIndex : Int)
    (isEmptyLine : Bool) (lines : List Str) (lineStartIndex : Int)
    (st : ScanState) (bds : List Int) :
    (processEmptyLine line lineIndex isEmptyLine lines lineStartIndex st
        bds).1.inCodeBlock = st.inCodeBlock ∧
    (processEmptyLine line lineIndex isEmptyLine lines lineStartIndex st
        bds).1.codeBlockFence = st.codeBlockFence ∧
    (∀ b ∈ (processEmptyLine line lineIndex isEmptyLine lines lineStartIndex st
        bds).2,
      b ∈ bds ∨ b = lineStartIndex - 1) := by
  unfold processEmptyLine
  refine ⟨?_, ?_, ?_⟩
  · (repeat' (first | split | simp only [])) <;> rfl
  · (repeat' (first | split | simp only [])) <;> rfl
  · (repeat' (first | split | simp only [])) <;> intro b hb <;>
      (try simp only [List.mem_append, List.mem_singleton] at hb) <;>
      first
        | exact Or.inl hb
        | (rcases hb with hb | rfl
           · exact Or.inl hb
           · exact Or.inr rfl)


/-- Pushing one element onto a boundary list under a condition: a member of
the result was already present or is the pushed offset. -/
theorem mem_ite_push {c : Prop} [Decidable c] {bds : List Int} {x b : Int}
    (hb : b ∈ (if c then bds ++ [x] else bds)) : b ∈ bds ∨ b = x := by
  split at hb
  · simp only [List.mem_append, List.mem_singleton] at hb
    exact hb
  · exact Or.inl hb

/-- Joint induction for the boundary detector and the fence-region scan:
no boundary lands strictly inside a closed fence region, every boundary stays
at or before the opening line end of an unclosed trailing fence, and new
boundaries are only emitted at or after the current cursor. -/
theorem detectLoop_fence_inv (lines : List Str) (rest : List Str) :
    ∀ (i : Int) (state : ScanState) (acc : List Int) (fs : FenceScan),
    state.currentIndex = fs.currentIndex →
    state.inCodeBlock = fs.inCB →
    state.codeBlockFence = fs.fence →
    (∀ b ∈ acc, b < state.currentIndex) →
    (state.inCodeBlock = true →
      (∀ b ∈ acc, b ≤ fs.openEnd) ∧ fs.openEnd < state.currentIndex) →
    (∀ oe cs : Int, (oe, cs) ∈ (fenceRegionsLoop rest fs).1 →
      ∀ b ∈ detectLoop lines rest i state acc, ¬(oe < b ∧ b < cs)) ∧
    (∀ e : Int, (fenceRegionsLoop rest fs).2 = some e →
      ∀ b ∈ detectLoop lines rest i state acc, b ≤ e) ∧
    (∀ b ∈ detectLoop lines rest i state acc,
      b ∈ acc ∨ state.currentIndex - 1 ≤ b) := by
  induction rest with
  | nil =>
    intro i state acc fs h1 h2 h3 hacc hopen
    obtain ⟨fsc, fsb, fsf, fso⟩ := fs
    simp only at h1 h2 h3
    subst h1; subst h2; subst h3
    refine ⟨?_, ?_, ?_⟩
    · intro oe cs hmem
      simp [fenceRegionsLoop] at hmem
    · intro e he b hb
      simp only [fenceRegionsLoop] at he
      by_cases hcb : state.inCodeBlock = true
      · rw [if_pos hcb] at he
        cases he
        exact (hopen hcb).1 b hb
      · rw [if_neg hcb] at he
        cases he
    · intro b hb
      exact Or.inl hb
  | cons line rest ih =>
    intro i state acc fs h1 h2 h3 hacc hopen
    obtain ⟨fsc, fsb, fsf, fso⟩ := fs
    simp only at h1 h2 h3
    subst h1; subst h2; subst h3
    simp only at hopen
    have hlen : (0 : Int) ≤ (line.length : Int) := by positivity
    simp only [detectLoop, fenceRegionsLoop]
    cases hfm : fenceMatch line with
    | none =>
      simp only [processCodeBlock, hfm]
      rw [if_neg (show ¬(false = true) from by simp)]
      by_cases hicb : state.inCodeBlock = true
      · -- fence interior without a fence marker: nothing pushed
        rw [if_pos hicb]
        have D := ih (i + 1)
          { state with currentIndex :=
              state.currentIndex + (line.length : Int) + 1 }
          acc
          ⟨state.currentIndex + (line.length : Int) + 1, state.inCodeBlock,
            state.codeBlockFence, fso⟩
          rfl rfl rfl
          (by
            intro b hb
            have := hacc b hb
            show b < state.currentIndex + (line.length : Int) + 1
            omega)
          (by
            intro hcb
            refine ⟨(hopen hicb).1, ?_⟩
            have := (hopen hicb).2
            show fso < state.currentIndex + (line.length : Int) + 1
            omega)
        refine ⟨D.1, D.2.1, ?_⟩
        intro b hb
        rcases D.2.2 b hb with hin | hge
        · exact Or.inl hin
        · right
          have : state.currentIndex + (line.length : Int) + 1 - 1 ≤ b := hge
          omega
      · -- plain line: the heading/list/empty handlers run
        rw [if_neg hicb]
        have hicb' : state.inCodeBlock = false := eq_false_of_ne_true hicb
        have step : ∀ (st' : ScanState) (acc' : List Int),
            st'.inCodeBlock = false →
            st'.codeBlockFence = state.codeBlockFence →
            (∀ b ∈ acc', b ∈ acc ∨ b = state.currentIndex - 1 ∨
              b = state.currentIndex + (line.length : Int)) →
            (∀ oe cs : Int, (oe, cs) ∈ (fenceRegionsLoop rest
                ⟨state.currentIndex + (line.length : Int) + 1,
                  state.inCodeBlock, state.codeBlockFence, fso⟩).1 →
              ∀ b ∈ detectLoop lines rest (i + 1)
                { st' with currentIndex :=
                    state.currentIndex + (line.length : Int) + 1 } acc',
                ¬(oe < b ∧ b < cs)) ∧
            (∀ e : Int, (fenceRegionsLoop rest
                ⟨state.currentIndex + (line.length : Int) + 1,
                  state.inCodeBlock, state.codeBlockFence, fso⟩).2 = some e →
              ∀ b ∈ detectLoop lines rest (i + 1)
                { st' with currentIndex :=
                    state.currentIndex + (line.length : Int) + 1 } acc',
                b ≤ e) ∧
            (∀ b ∈ detectLoop lines rest (i + 1)
                { st' with currentIndex :=
                    state.currentIndex + (line.length : Int) + 1 } acc',
              b ∈ acc ∨ state.currentIndex - 1 ≤ b) := by
          intro st' acc' hcb' hfence' hbound
          have D := ih (i + 1)
            { st' with currentIndex :=
                state.currentIndex + (line.length : Int) + 1 }
            acc'
            ⟨state.currentIndex + (line.length : Int) + 1, state.inCodeBlock,
              state.codeBlockFence, fso⟩
            rfl (by show st'.inCodeBlock = state.inCodeBlock
                    rw [hcb', hicb'])
            (by show st'.codeBlockFence = state.codeBlockFence
                exact hfence')
            (by
              intro b hb
              show b < state.currentIndex + (line.length : Int) + 1
              rcases hbound b hb with hin | rfl | rfl
              · have := hacc b hin; omega
              · omega
              · omega)
            (by
              intro hcb
              have : st'.inCodeBlock = true := hcb
              rw [hcb'] at this
              cases this)
          refine ⟨D.1, D.2.1, ?_⟩
          intro b hb
          rcases D.2.2 b hb with hin | hge
          · rcases hbound b hin with h' | rfl | rfl
            · exact Or.inl h'
            · right; omega
            · right; omega
          · right
            have : state.currentIndex + (line.length : Int) + 1 - 1 ≤ b := hge
            omega
        obtain ⟨hh1, hh2, hh3⟩ := processHeading_inv line i
          (state.currentIndex + (line.length : Int)) state acc
          state.currentIndex
        by_cases hH : (processHeading line i
            (state.currentIndex + (line.length : Int)) state acc
            state.currentIndex).1 = true
        · rw [if_pos hH]
          exact step _ _ (by rw [hh1]; exact hicb') hh2 hh3
        · rw [if_neg hH]
          obtain ⟨hl1, hl2, hl3⟩ := processListItem_inv line i
            (jsTrim line == []) (state.currentIndex + (line.length : Int))
            (processHeading line i (state.currentIndex + (line.length : Int))
              state acc state.currentIndex).2.1
            (processHeading line i (state.currentIndex + (line.length : Int))
              state acc state.currentIndex).2.2
            state.currentIndex
          by_cases hL : (processListItem line i (jsTrim line == [])
              (state.currentIndex + (line.length : Int))
              (processHeading line i (state.currentIndex +
                (line.length : Int)) state acc state.currentIndex).2.1
              (processHeading line i (state.currentIndex +
                (line.length : Int)) state acc state.currentIndex).2.2
              state.currentIndex).1 = true
          · rw [if_pos hL]
            refine step _ _ (by rw [hl1, hh1]; exact hicb') (by rw [hl2, hh2])
              ?_
            intro b hb
            rcases hl3 b hb with hin | rfl
            · exact hh3 b hin
            · exact Or.inr (Or.inl rfl)
          · rw [if_neg hL]
            obtain ⟨he1, he2, he3⟩ := processEmptyLine_inv line i
              (jsTrim line == []) lines state.currentIndex
              (processListItem line i (jsTrim line == [])
                (state.currentIndex + (line.length : Int))
                (processHeading line i (state.currentIndex +
                  (line.length : Int)) state acc state.currentIndex).2.1
                (processHeading line i (state.currentIndex +
                  (line.length : Int)) state acc state.currentIndex).2.2
                state.currentIndex).2.1
              (processListItem line i (jsTrim line == [])
                (state.currentIndex + (line.length : Int))
                (processHeading line i (state.currentIndex +
                  (line.length : Int)) state acc state.currentIndex).2.1
                (processHeading line i (state.currentIndex +
                  (line.length : Int)) state acc state.currentIndex).2.2
                state.currentIndex).2.2
            refine step _ _ (by rw [he1, hl1, hh1]; exact hicb')
              (by rw [he2, hl2, hh2]) ?_
            intro b hb
            rcases he3 b hb with hin | rfl
            · rcases hl3 b hin with hin' | rfl
              · exact hh3 b hin'
              · exact Or.inr (Or.inl rfl)
            · exact Or.inr (Or.inl rfl)
    | some f =>
      simp only [processCodeBlock, hfm]
      by_cases hicb : state.inCodeBlock = true
      · have hni : ¬((!state.inCodeBlock) = true) := by simp [hicb]
        rw [if_neg hni, if_neg hni]
        by_cases hfeq : (f == state.codeBlockFence) = true
        · -- closing fence line: boundary at the line end, region closes
          rw [if_pos hfeq, if_pos hfeq]
          rw [if_pos (show (true = true) from rfl)]
          have D := ih (i + 1)
            { state with
                currentIndex := state.currentIndex + (line.length : Int) + 1
                inCodeBlock := false
                codeBlockFence := []
                lastNonEmptyLineIndex := i }
            (acc ++ [state.currentIndex + (line.length : Int)])
            ⟨state.currentIndex + (line.length : Int) + 1, false, [], fso⟩
            rfl rfl rfl
            (by
              intro b hb
              show b < state.currentIndex + (line.length : Int) + 1
              simp only [List.mem_append, List.mem_singleton] at hb
              rcases hb with hin | rfl
              · have := hacc b hin; omega
              · omega)
            (by intro hcb; cases hcb)
          refine ⟨?_, ?_, ?_⟩
          · intro oe cs hmem b hb
            simp only [List.mem_cons] at hmem
            rcases hmem with heq | htail
            · simp only [Prod.mk.injEq] at heq
              obtain ⟨rfl, rfl⟩ := heq
              rcases D.2.2 b hb with hin | hge
              · simp only [List.mem_append, List.mem_singleton] at hin
                rcases hin with hin | rfl
                · have hle := (hopen hicb).1 b hin
                  intro hcon
                  omega
                · intro hcon
                  omega
              · have : state.currentIndex + (line.length : Int) + 1 - 1 ≤ b :=
                  hge
                intro hcon
                omega
            · exact D.1 oe cs htail b hb
          · intro e he b hb
            exact D.2.1 e he b hb
          · intro b hb
            rcases D.2.2 b hb with hin | hge
            · simp only [List.mem_append, List.mem_singleton] at hin
              rcases hin with hin | rfl
              · exact Or.inl hin
              · right; omega
            · right
              have : state.currentIndex + (line.length : Int) + 1 - 1 ≤ b :=
                hge
              omega
        · -- mismatched fence marker inside an open fence: nothing happens
          rw [if_neg hfeq, if_neg hfeq]
          rw [if_neg (show ¬(false = true) from by simp), if_pos hicb]
          have D := ih (i + 1)
            { state with currentIndex :=
                state.currentIndex + (line.length : Int) + 1 }
            acc
            ⟨state.currentIndex + (line.length : Int) + 1, state.inCodeBlock,
              state.codeBlockFence, fso⟩
            rfl rfl rfl
            (by
              intro b hb
              have := hacc b hb
              show b < state.currentIndex + (line.length : Int) + 1
              omega)
            (by
              intro hcb
              refine ⟨(hopen hicb).1, ?_⟩
              have := (hopen hicb).2
              show fso < state.currentIndex + (line.length : Int) + 1
              omega)
          refine ⟨D.1, D.2.1, ?_⟩
          intro b hb
          rcases D.2.2 b hb with hin | hge
          · exact Or.inl hin
          · right
            have : state.currentIndex + (line.length : Int) + 1 - 1 ≤ b := hge
            omega
      · -- opening fence line
        have hicb' : state.inCodeBlock = false := eq_false_of_ne_true hicb
        have hpos : (!state.inCodeBlock) = true := by simp [hicb']
        rw [if_pos hpos, if_pos hpos]
        rw [if_neg (show ¬(false = true) from by simp)]
        rw [if_pos (show (true = true) from rfl)]
        have D := ih (i + 1)
          { state with
              currentIndex := state.currentIndex + (line.length : Int) + 1
              inCodeBlock := true
              codeBlockFence := f }
          (if (decide (state.lastNonEmptyLineIndex ≥ 0) &&
              decide (state.lastNonEmptyLineIndex < i - 1)) = true then
            acc ++ [state.currentIndex - 1] else acc)
          ⟨state.currentIndex + (line.length : Int) + 1, true, f,
            state.currentIndex + (line.length : Int)⟩
          rfl rfl rfl
          (by
            intro b hb
            show b < state.currentIndex + (line.length : Int) + 1
            rcases mem_ite_push hb with hin | rfl
            · have := hacc b hin; omega
            · omega)
          (by
            intro _
            constructor
            · intro b hb
              show b ≤ state.currentIndex + (line.length : Int)
              rcases mem_ite_push hb with hin | rfl
              · have := hacc b hin; omega
              · omega
            · show state.currentIndex + (line.length : Int) <
                state.currentIndex + (line.length : Int) + 1
              omega)
        refine ⟨D.1, D.2.1, ?_⟩
        intro b hb
        rcases D.2.2 b hb with hin | hge
        · rcases mem_ite_push hin with hin' | rfl
          · exact Or.inl hin'
          · right; omega
        · right
          have : state.currentIndex + (line.length : Int) + 1 - 1 ≤ b := hge
          omega

/-- C1 (amended): the line-by-line boundary detector places no boundary
strictly inside a closed fenced code block, and none beyond the opening line
of a trailing unclosed fence.  (The size-based overflow fallback does NOT
share this property; see the counterexample.) -/
theorem c1_detect_no_boundary_inside_fence (md : Str) :
    (∀ oe cs : Int, (oe, cs) ∈ (fenceRegions md).1 →
      ∀ b ∈ detectBlockBoundaries md, ¬(oe < b ∧ b < cs)) ∧
    (∀ e : Int, (fenceRegions md).2 = some e →
      ∀ b ∈ detectBlockBoundaries md, b ≤ e) := by
  have D := detectLoop_fence_inv (splitLines md) (splitLines md) 0
    initialScanState [] ⟨0, false, [], 0⟩ rfl rfl rfl
    (by intro b hb; cases hb)
    (by intro h; exact absurd h (by decide))
  exact ⟨fun oe cs hm b hb => D.1 oe cs hm b hb,
    fun e he b hb => D.2.1 e he b hb⟩

def c1md : Str := ("```\na\n```\n").data

/-- Witness for the amended C1 theorem at a concrete fenced buffer: the fence
spans offsets (3, 6) and the only boundary, 9, is not strictly inside it. -/
theorem c1_detect_no_boundary_inside_fence_witness :
    ((3 : Int), (6 : Int)) ∈ (fenceRegions c1md).1 ∧
      (9 : Int) ∈ detectBlockBoundaries c1md ∧
      ¬((3 : Int) < 9 ∧ (9 : Int) < 6) :=
  ⟨by decide, by decide,
    (c1_detect_no_boundary_inside_fence c1md).1 3 6 (by decide) 9
      (by decide)⟩

def c1buf : Str :=
  '`' :: '`' :: '`' :: '\n' :: (List.replicate 550 'a' ++
    '\n' :: List.replicate 550 'b')

def c1full : Str := c1buf ++ '\n' :: '`' :: '`' :: '`' :: '\n' :: []

/-- Counterexample to C1 as stated: a buffer whose open fence body exceeds the
1000-character threshold.  The detector finds no boundary, but the size-based
overflow fallback of `processAccumulatedContent` flushes the first 555
characters as a block — an offset strictly inside the fence, which is still
open in the buffer (unclosed end 3 < 555) and spans (3, 1106) once the stream
completes. -/
theorem c1_fallback_splits_open_fence :
    (fenceRegions c1full).1 = [((3 : Int), (1106 : Int))] ∧
    (fenceRegions c1buf).2 = some 3 ∧
    detectBlockBoundaries c1buf = [] ∧
    (let s := processAccumulatedContent idEnv ⟨[], 0, 0, c1buf⟩
     (s.renderBlocks.map fun b => b.html.length) = [555] ∧
       s.accumulatedMarkdown = List.replicate 550 'b' ∧
       c1buf.length - s.accumulatedMarkdown.length = 555) ∧
    ((3 : Int) < 555 ∧ (555 : Int) < 1106) := by
  refine ⟨by decide, by decide, by decide, ⟨?_, ?_, ?_⟩, by decide⟩
  · decide
  · decide
  · decide

/-! C6 material -/

def ulAB : Str := ("<ul><li>a</li><li>b</li></ul>").data
def ulC : Str := ("<ul><li>c</li></ul>").data

def listEnv : Env :=
  ⟨fun s =>
    if s == ("- a\n- b\n\n").data then some ulAB
    else if s == ("- c\n").data then some ulC
    else some s,
   fun s => some s, fun s => s⟩

def c6final : CompState :=
  finalizeStream listEnv
    (handleContentUpdate listEnv ("- a\n- b\n\n- c\n").data
      (handleContentUpdate listEnv ("- a\n- b\n\n").data
        (handleContentUpdate listEnv ("- a\n- b\n").data
          (handleContentUpdate listEnv ("- a\n").data initialCompState))))

/-- Counterexample to C6 as stated: the claim's own test vector — the
cumulative updates "- a\n", "- a\n- b\n", "- a\n- b\n\n", "- a\n- b\n\n- c\n"
with a converter that renders each flushed chunk as the corresponding HTML
list — produces TWO stored list blocks, not a single three-item list:
`processEmptyLine` inspects `lines[lineIndex + 1]`, which at the buffer's
trailing blank line is past the end (the list closes), not the next non-blank
line of the eventual stream. -/
theorem c6_blank_line_splits_list :
    c6final.renderBlocks =
      [⟨("md-block-0").data, ulAB⟩, ⟨("md-block-1").data, ulC⟩] := by
  decide

/-- C6 (amended): on a blank line while inside a list, the detector keeps the
list open iff the IMMEDIATELY FOLLOWING LINE exists and is a list item at the
same or deeper indentation; otherwise (next line missing, blank, non-list, or
shallower) the list closes.  The spec's "next non-blank line" reading is
refuted by the counterexample. -/
theorem c6_list_close_next_line (line : Str) (lineIndex : Int)
    (lines : List Str) (lineStartIndex : Int) (st : ScanState)
    (bds : List Int) (hL : st.inList = true) :
    ((processEmptyLine line lineIndex true lines lineStartIndex st
        bds).1.inList = false) ↔
      ¬(lineIndex < (lines.length : Int) - 1 ∧
        ∃ n : Nat, listMatch (lines.getD (lineIndex + 1).toNat []) = some n ∧
          st.listIndent ≤ (n : Int)) := by
  simp only [processEmptyLine, Bool.not_true, Bool.false_eq_true, if_false]
  rw [if_pos hL]
  by_cases hlt : lineIndex < (lines.length : Int) - 1
  · rw [if_pos hlt]
    cases hnm : listMatch (lines.getD (lineIndex + 1).toNat []) with
    | none =>
      simp only [Option.isNone_none, Bool.true_or, if_pos]
      constructor
      · rintro - ⟨-, n, hn, -⟩
        cases hn
      · intro h
        trivial
    | some n =>
      simp only [Option.isNone_some, Bool.false_or]
      by_cases hind : (n : Int) < st.listIndent
      · rw [if_pos (show decide ((n : Int) < st.listIndent) = true from by
          simpa using hind)]
        constructor
        · rintro - ⟨-, m, hm, hle⟩
          injection hm with hm'
          omega
        · intro h
          trivial
      · rw [if_neg (show ¬(decide ((n : Int) < st.listIndent) = true) from by
          simpa using hind)]
        constructor
        · intro h
          exact absurd h (by simp [hL])
        · intro h
          exact absurd ⟨hlt, n, rfl, by omega⟩ h
  · rw [if_neg hlt]
    constructor
    · rintro - ⟨h1, -⟩
      exact hlt h1
    · intro h
      rfl

def c6lines : List Str := [("- a").data, [], ("- b").data]

def c6st : ScanState := ⟨4, false, [], true, 0, 0⟩

/-- Witness for the amended C6 theorem: a blank line at index 1 whose
immediately following line is a list item at equal indentation; the iff holds
and indeed the list stays open. -/
theorem c6_list_close_next_line_witness :
    (((processEmptyLine [] 1 true c6lines 4 c6st []).1.inList = false) ↔
      ¬((1 : Int) < (c6lines.length : Int) - 1 ∧
        ∃ n : Nat, listMatch (c6lines.getD ((1 : Int) + 1).toNat []) =
            some n ∧ c6st.listIndent ≤ (n : Int))) ∧
    (processEmptyLine [] 1 true c6lines 4 c6st []).1.inList = true :=
  ⟨c6_list_close_next_line [] 1 c6lines 4 c6st [] rfl, by decide⟩

/-! C9 material -/

/-- Counterexample to C9 as stated: plain text at the very start of the input
("hello ") precedes the first top-level tag while `currentBlockStart` is still
-1, so `handleNonSelfClosingBlock` emits nothing for it and it is dropped from
the splitter's output — non-whitespace input text IS lost. -/
theorem c9_leading_text_dropped :
    splitIntoCompleteBlocks (("hello <p>x</p>").data) = [("<p>x</p>").data] ∧
    ∀ b ∈ splitIntoCompleteBlocks (("hello <p>x</p>").data),
      strContains (("hello").data) b = false := by
  refine ⟨by decide, ?_⟩
  decide

/-- C9 (amended): on an opening top-level tag, the pending text run is emitted
iff a run is actually open (`currentBlockStart ≥ 0`), the tag starts strictly
after it, and the run trims to something non-empty; with `currentBlockStart`
at its initial -1 (in particular for text before the first top-level tag) the
emitted blocks are unchanged and the text is dropped. -/
theorem c9_pending_text_emission (html : Str) (i : Nat) (tagName : Str)
    (st : SplitSt) :
    ((st.currentBlockStart ≥ 0 ∧ (i : Int) > st.currentBlockStart ∧
        jsTrim (jsSubstring html st.currentBlockStart i) ≠ []) →
      (handleNonSelfClosingBlock html i tagName st).1.blocks =
        st.blocks ++ [jsTrim (jsSubstring html st.currentBlockStart i)]) ∧
    (st.currentBlockStart = -1 →
      (handleNonSelfClosingBlock html i tagName st).1.blocks = st.blocks) := by
  constructor
  · rintro ⟨h1, h2, h3⟩
    simp only [handleNonSelfClosingBlock]
    split_ifs with hc
    · rfl
    · exact absurd (by simp [h1, h2]) hc
  · intro hm1
    simp only [handleNonSelfClosingBlock]
    rw [if_neg (show ¬((decide (st.currentBlockStart ≥ 0) &&
        decide ((i : Int) > st.currentBlockStart)) = true) from by
      simp [hm1])]

/-- Witness for the amended C9 theorem: at the `<p>` of "hello <p>x</p>" with
an open text run from offset 0, the trimmed run "hello" is emitted. -/
theorem c9_pending_text_emission_witness :
    (handleNonSelfClosingBlock (("hello <p>x</p>").data) 6 (("p").data)
        ⟨[], 0, []⟩).1.blocks = [("hello").data] :=
  (c9_pending_text_emission (("hello <p>x</p>").data) 6 (("p").data)
      ⟨[], 0, []⟩).1 ⟨by decide, by decide, by decide⟩
